import Mathlib

/-! email-resource: the `out` step (`out/out.go`, function `Execute`)

A shallow embedding of `Execute` and of the library calls it makes, followed by
theorems about it.

Conventions of the embedding.

* Go strings and byte slices are Lean `String`s (sequences of characters).  The
  string functions of the Go standard library that `Execute` calls
  (`strings.Replace`, `strings.Trim`, `strings.TrimSpace`, `strings.Split`,
  `strings.Join`) are defined on the character lists underneath.
* A Go `error` is a value of `GoError`; `nil` is `none`.
* Everything `Execute` gets from outside (environment, file system, clock, JSON
  codec, SMTP server, path functions, the iteration order of a Go map) is a field
  of `World`.
* `Execute` returns an `Outcome`: the two Go results and the list of file reads
  and SMTP sends it performed, in order.
-/

namespace EmailResource

/-! ## Data model -/

/-- Modelled from the spec: the declaration of the SMTP block of the configuration
is not in `out.go`; the fields are the ones `Execute` reads
(`indata.Source.SMTP.Host` and so on), typed as in the data model of the spec. -/
structure SMTPConfig where
  Host : String
  Port : String
  Username : String
  Password : String
  Anonymous : Bool
  deriving DecidableEq, Repr

/-- Modelled from the spec: the declaration of the `source` block is not in
`out.go`; the fields are the ones `Execute` reads. -/
structure Source where
  SMTP : SMTPConfig
  From : String
  To : List String
  deriving DecidableEq, Repr

/-- Modelled from the spec: the declaration of the `params` block is not in
`out.go`; the fields are the ones `Execute` reads. -/
structure Params where
  Subject : String
  Body : String
  Headers : String
  To : String
  SendEmptyBody : Bool
  deriving DecidableEq, Repr

/-- Modelled from the spec: the declaration of `Input` is not in `out.go`; it is
the decoded configuration, a `source` block and a `params` block. -/
structure Input where
  Source : Source
  Params : Params
  deriving DecidableEq, Repr

/-- Modelled from the spec: the declaration of `MetadataItem` is not in `out.go`;
`Execute` builds it from a `Name` and a `Value`. -/
structure MetadataItem where
  Name : String
  Value : String
  deriving DecidableEq, Repr

/-- Modelled from the spec: the declaration of the version block of the output
record is not in `out.go`; `Execute` stores the capture time in it.  An instant is
a natural number. -/
structure Version where
  Time : Nat
  deriving DecidableEq, Repr

/-- Modelled from the spec: the declaration of `Output` is not in `out.go`; it is
a version block and an ordered sequence of metadata pairs. -/
structure Output where
  Version : Version
  Metadata : List MetadataItem
  deriving DecidableEq, Repr

/-- A Go `error` value, by where it was made: `errors.New text` inside `Execute`,
or an error handed back by one of the library calls. -/
inductive GoError where
  | errorsNew (text : String)
  | jsonUnmarshal (text : String)
  | readFile (text : String)
  | jsonMarshal (text : String)
  | sendMail (text : String)
  deriving DecidableEq, Repr

deriving instance DecidableEq for Except

/-- The value `smtp.PlainAuth identity username password host` builds. -/
structure PlainAuth where
  identity : String
  username : String
  password : String
  host : String
  deriving DecidableEq, Repr

/-- The five arguments of one call of `smtp.SendMail`; `auth = none` is Go's `nil`. -/
structure SendRequest where
  addr : String
  auth : Option PlainAuth
  sender : String
  rcpts : List String
  msg : String
  deriving DecidableEq, Repr

/-- The observable actions of `Execute`. -/
inductive Event where
  | readFile (path : String)
  | sendMail (req : SendRequest)
  deriving DecidableEq, Repr

/-- The four places where `Execute` calls `readSource`. -/
inductive ReadSite where
  | subject
  | headers
  | body
  | toList
  deriving DecidableEq, Repr

/-- What `Execute` returns (`payload`, `err`) and what it did (`trace`). -/
structure Outcome where
  payload : String
  err : Option GoError
  trace : List Event
  deriving DecidableEq, Repr

/-- Everything outside `Execute`.  `rangeOrder site m` is the order in which the
`range` loop of `replaceTokens` visits the entries `m` of the map `buildTokens`
when `readSource` is called at `site`; Go leaves that order unspecified. -/
structure World where
  getenv : String → String
  unmarshal : List UInt8 → Except String Input
  isAbs : String → Bool
  join : String → String → String
  readFile : String → String × Option String
  rangeOrder : ReadSite → List (String × String) → List (String × String)
  now : Nat
  marshal : Output → Except String String
  sendMail : SendRequest → Option String

/-! ## The string functions of the Go library -/

/-- The scan of `strings.Replace s old new (-1)` for a non-empty `old`, on
character lists: `skip` characters of a match just replaced are still to be
dropped. -/
def replaceScan (old new : List Char) : Nat → List Char → List Char
  | _, [] => []
  | skip + 1, _ :: s => replaceScan old new skip s
  | 0, c :: s =>
    if old.isPrefixOf (c :: s) then new ++ replaceScan old new (old.length - 1) s
    else c :: replaceScan old new 0 s

/-- The character-list form of `strings.Replace s old new (-1)`: every
non-overlapping occurrence of `old`, found left to right, becomes `new`; an empty
`old` matches before every character and at the end. -/
def replaceChars (s old new : List Char) : List Char :=
  if old = [] then new ++ s.flatMap (fun c => c :: new)
  else replaceScan old new 0 s

/-- The call `strings.Replace s old new (-1)`. -/
def Replace (s old new : String) : String :=
  ⟨replaceChars s.data old.data new.data⟩

/-- The call `strings.Trim s cutset`: the leading and trailing characters of `s`
that occur in `cutset` are removed. -/
def Trim (s cutset : String) : String :=
  ⟨((s.data.dropWhile (fun c => decide (c ∈ cutset.data))).reverse.dropWhile
      (fun c => decide (c ∈ cutset.data))).reverse⟩

/-- Go's `unicode.IsSpace`. -/
def isSpace (c : Char) : Bool :=
  let n := c.toNat
  (0x09 ≤ n && n ≤ 0x0d) || n == 0x20 || n == 0x85 || n == 0xa0 || n == 0x1680 ||
  (0x2000 ≤ n && n ≤ 0x200a) || n == 0x2028 || n == 0x2029 || n == 0x202f ||
  n == 0x205f || n == 0x3000

/-- The call `strings.TrimSpace s`. -/
def TrimSpace (s : String) : String :=
  ⟨((s.data.dropWhile isSpace).reverse.dropWhile isSpace).reverse⟩

/-- The scan of `strings.Split s sep` for a non-empty `sep`: `cur` is the piece
being read, reversed; `skip` characters of a separator just found are still to be
dropped. -/
def splitScan (sep : List Char) : Nat → List Char → List Char → List (List Char)
  | _, cur, [] => [cur.reverse]
  | skip + 1, cur, _ :: s => splitScan sep skip cur s
  | 0, cur, c :: s =>
    if sep.isPrefixOf (c :: s) then cur.reverse :: splitScan sep (sep.length - 1) [] s
    else splitScan sep 0 (c :: cur) s

/-- The call `strings.Split s sep`: the pieces of `s` between the occurrences of
`sep`; an empty `sep` splits after every character. -/
def Split (s sep : String) : List String :=
  if sep.data = [] then s.data.map (fun c => String.mk [c])
  else (splitScan sep.data 0 [] s.data).map String.mk

/-- The call `strings.Join elems sep`. -/
def Join : List String → String → String
  | [], _ => ""
  | [a], _ => a
  | a :: b :: rest, sep => a ++ sep ++ Join (b :: rest) sep

/-! ## `Execute` -/

/-- Lines 17-24: the map `buildTokens`, its entries in the order written. -/
def buildTokens (getenv : String → String) : List (String × String) :=
  [("${BUILD_ID}", getenv "BUILD_ID"),
   ("${BUILD_NAME}", getenv "BUILD_NAME"),
   ("${BUILD_JOB_NAME}", getenv "BUILD_JOB_NAME"),
   ("${BUILD_PIPELINE_NAME}", getenv "BUILD_PIPELINE_NAME"),
   ("${ATC_EXTERNAL_URL}", getenv "ATC_EXTERNAL_URL"),
   ("${BUILD_TEAM_NAME}", getenv "BUILD_TEAM_NAME")]

/-- Lines 67-72: the closure `replaceTokens`; `visited` is the entries of
`buildTokens` in the order the `range` loop visits them. -/
def replaceTokens (visited : List (String × String)) (sourceString : String) : String :=
  visited.foldl (fun sourceString kv => Replace sourceString kv.1 kv.2) sourceString

/-- Lines 75-77: the path `readSource` hands to `ioutil.ReadFile`. -/
def sourceFile (w : World) (sourceRoot sourcePath : String) : String :=
  if !w.isAbs sourcePath then w.join sourceRoot sourcePath else sourcePath

/-- Lines 74-81: the closure `readSource`, called at `site`. -/
def readSource (w : World) (sourceRoot : String) (site : ReadSite) (sourcePath : String) :
    String × Option GoError :=
  let (bytes, err) := w.readFile (sourceFile w sourceRoot sourcePath)
  (replaceTokens (w.rangeOrder site (buildTokens w.getenv)) bytes, err.map GoError.readFile)

/-- The file read one call of `readSource` performs. -/
def readEvent (w : World) (sourceRoot sourcePath : String) : Event :=
  Event.readFile (sourceFile w sourceRoot sourcePath)

/-- Lines 37-65: the checks on the decoded configuration; `none` when all pass. -/
def validate (indata : Input) : Option GoError :=
  if indata.Source.SMTP.Host = "" then
    some (.errorsNew "missing required field \"source.smtp.host\"")
  else if indata.Source.SMTP.Port = "" then
    some (.errorsNew "missing required field \"source.smtp.port\"")
  else if indata.Source.From = "" then
    some (.errorsNew "missing required field \"source.from\"")
  else if indata.Source.To.length = 0 ∧ indata.Params.To.length = 0 then
    some (.errorsNew
      "missing required field \"source.to\" or \"params.to\". Must specify at least one")
  else if indata.Params.Subject = "" then
    some (.errorsNew "missing required field \"params.subject\"")
  else if indata.Source.SMTP.Anonymous = false then
    if indata.Source.SMTP.Username = "" then
      some (.errorsNew
        "missing required field \"source.smtp.username\" if anonymous specify anonymous: true")
    else if indata.Source.SMTP.Password = "" then
      some (.errorsNew
        "missing required field \"source.smtp.password\" if anonymous specify anonymous: true")
    else none
  else none

/-- Lines 83-87: the subject. -/
def resolveSubject (w : World) (sourceRoot : String) (indata : Input) :
    Except GoError String × List Event :=
  match readSource w sourceRoot .subject indata.Params.Subject with
  | (_, some err) => (.error err, [readEvent w sourceRoot indata.Params.Subject])
  | (subject, none) => (.ok (Trim subject "\n"), [readEvent w sourceRoot indata.Params.Subject])

/-- Lines 89-96: the headers. -/
def resolveHeaders (w : World) (sourceRoot : String) (indata : Input) :
    Except GoError String × List Event :=
  if indata.Params.Headers ≠ "" then
    match readSource w sourceRoot .headers indata.Params.Headers with
    | (_, some err) => (.error err, [readEvent w sourceRoot indata.Params.Headers])
    | (headers, none) => (.ok (Trim headers "\n"), [readEvent w sourceRoot indata.Params.Headers])
  else (.ok "", [])

/-- Lines 98-104: the body. -/
def resolveBody (w : World) (sourceRoot : String) (indata : Input) :
    Except GoError String × List Event :=
  if indata.Params.Body ≠ "" then
    match readSource w sourceRoot .body indata.Params.Body with
    | (_, some err) => (.error err, [readEvent w sourceRoot indata.Params.Body])
    | (body, none) => (.ok body, [readEvent w sourceRoot indata.Params.Body])
  else (.ok "", [])

/-- Lines 106-118: the recipient list, `indata.Source.To` after the block. -/
def resolveTo (w : World) (sourceRoot : String) (indata : Input) :
    Except GoError (List String) × List Event :=
  if indata.Params.To ≠ "" then
    match readSource w sourceRoot .toList indata.Params.To with
    | (_, some err) => (.error err, [readEvent w sourceRoot indata.Params.To])
    | (toList, none) =>
      if toList.length > 0 then
        (.ok ((Split toList ",").foldl
            (fun sourceTo toAddress => sourceTo ++ [TrimSpace toAddress]) indata.Source.To),
          [readEvent w sourceRoot indata.Params.To])
      else (.ok indata.Source.To, [readEvent w sourceRoot indata.Params.To])
  else (.ok indata.Source.To, [])

/-- The values lines 83-118 leave behind. -/
structure Resolved where
  subject : String
  headers : String
  body : String
  To : List String
  deriving DecidableEq, Repr

/-- Lines 83-118 in sequence: the first failing read ends the call. -/
def resolve (w : World) (sourceRoot : String) (indata : Input) :
    Except GoError Resolved × List Event :=
  match resolveSubject w sourceRoot indata with
  | (.error err, t1) => (.error err, t1)
  | (.ok subject, t1) =>
    match resolveHeaders w sourceRoot indata with
    | (.error err, t2) => (.error err, t1 ++ t2)
    | (.ok headers, t2) =>
      match resolveBody w sourceRoot indata with
      | (.error err, t3) => (.error err, t1 ++ t2 ++ t3)
      | (.ok body, t3) =>
        match resolveTo w sourceRoot indata with
        | (.error err, t4) => (.error err, t1 ++ t2 ++ t3 ++ t4)
        | (.ok sourceTo, t4) => (.ok ⟨subject, headers, body, sourceTo⟩, t1 ++ t2 ++ t3 ++ t4)

/-- Lines 120-126: the output record. -/
def outputRecord (w : World) (version : String) (indata : Input) (subject : String) : Output :=
  { Version := { Time := w.now }
    Metadata := [⟨"smtp_host", indata.Source.SMTP.Host⟩, ⟨"subject", subject⟩,
      ⟨"version", version⟩] }

/-- Lines 132-141: the message, built by appending to `messageData`. -/
def assembleMessage (sourceTo : List String) (sender headers subject body : String) :
    String :=
  let messageData := ""
  let messageData := messageData ++ ("To: " ++ Join sourceTo ", " ++ "\n")
  let messageData := messageData ++ ("From: " ++ sender ++ "\n")
  let messageData := if headers ≠ "" then messageData ++ (headers ++ "\n") else messageData
  let messageData := messageData ++ ("Subject: " ++ subject ++ "\n")
  let messageData := messageData ++ "\n"
  messageData ++ body

/-- Line 144: the error of the refused empty body. -/
def emptyBodyError : GoError :=
  .errorsNew ("Message not sent because the message body is empty and send_empty_body " ++
    "parameter was set to false. Github readme: https://github.com/pivotal-cf/email-resource")

/-- Lines 147-168: the arguments of the one call of `smtp.SendMail`. -/
def sendRequest (indata : Input) (sourceTo : List String) (messageData : String) :
    SendRequest :=
  if indata.Source.SMTP.Anonymous then
    { addr := indata.Source.SMTP.Host ++ ":" ++ indata.Source.SMTP.Port
      auth := none
      sender := indata.Source.From
      rcpts := sourceTo
      msg := messageData }
  else
    { addr := indata.Source.SMTP.Host ++ ":" ++ indata.Source.SMTP.Port
      auth := some ⟨"", indata.Source.SMTP.Username, indata.Source.SMTP.Password,
        indata.Source.SMTP.Host⟩
      sender := indata.Source.From
      rcpts := sourceTo
      msg := messageData }

/-- Lines 120-173: record, message, the empty-body check and the send. -/
def deliver (w : World) (version : String) (indata : Input) (r : Resolved) : Outcome :=
  match w.marshal (outputRecord w version indata r.subject) with
  | .error err => ⟨"", some (.jsonMarshal err), []⟩
  | .ok outbytes =>
    let messageData := assembleMessage r.To indata.Source.From r.headers r.subject r.body
    if indata.Params.SendEmptyBody = false ∧ r.body.length = 0 then
      ⟨outbytes, some emptyBodyError, []⟩
    else
      match w.sendMail (sendRequest indata r.To messageData) with
      | some err => ⟨"", some (.sendMail err), [Event.sendMail (sendRequest indata r.To messageData)]⟩
      | none => ⟨outbytes, none, [Event.sendMail (sendRequest indata r.To messageData)]⟩

/-- The function `Execute` of `out.go`. -/
def Execute (w : World) (sourceRoot version : String) (input : List UInt8) : Outcome :=
  if sourceRoot = "" then
    ⟨"", some (.errorsNew "expected path to build sources as first argument"), []⟩
  else
    match w.unmarshal input with
    | .error err => ⟨"", some (.jsonUnmarshal err), []⟩
    | .ok indata =>
      match validate indata with
      | some err => ⟨"", some err, []⟩
      | none =>
        match resolve w sourceRoot indata with
        | (.error err, trace) => ⟨"", some err, trace⟩
        | (.ok r, trace) =>
          let out := deliver w version indata r
          ⟨out.payload, out.err, trace ++ out.trace⟩

/-! ## The validator as the specification words it -/

/-- The requirements on a decoded configuration in the order the specification
lists them, each with whether it is violated and the text reported for it. -/
def requirementChecks (cfg : Input) : List (Bool × String) :=
  [ (cfg.Source.SMTP.Host == "", "missing required field \"source.smtp.host\""),
    (cfg.Source.SMTP.Port == "", "missing required field \"source.smtp.port\""),
    (cfg.Source.From == "", "missing required field \"source.from\""),
    (cfg.Source.To.isEmpty && cfg.Params.To == "",
      "missing required field \"source.to\" or \"params.to\". Must specify at least one"),
    (cfg.Params.Subject == "", "missing required field \"params.subject\""),
    (!cfg.Source.SMTP.Anonymous && cfg.Source.SMTP.Username == "",
      "missing required field \"source.smtp.username\" if anonymous specify anonymous: true"),
    (!cfg.Source.SMTP.Anonymous && cfg.Source.SMTP.Password == "",
      "missing required field \"source.smtp.password\" if anonymous specify anonymous: true") ]

/-- The text of the earliest violated requirement, `none` when there is none. -/
def firstViolation (cfg : Input) : Option String :=
  ((requirementChecks cfg).find? (fun check => check.1)).map (fun check => check.2)


/-- The required fields of the configuration, as the specification names them. -/
inductive RequiredField where
  | host
  | port
  | sender
  | recipients
  | subject
  | username
  | password
  deriving DecidableEq, Repr

/-- Whether a required field is missing from a configuration; user name and
password are required only when `anonymous` is false, and the recipients are
missing when both `source.to` and `params.to` are absent. -/
def RequiredField.missing (cfg : Input) : RequiredField → Bool
  | .host => cfg.Source.SMTP.Host == ""
  | .port => cfg.Source.SMTP.Port == ""
  | .sender => cfg.Source.From == ""
  | .recipients => cfg.Source.To.isEmpty && cfg.Params.To == ""
  | .subject => cfg.Params.Subject == ""
  | .username => !cfg.Source.SMTP.Anonymous && cfg.Source.SMTP.Username == ""
  | .password => !cfg.Source.SMTP.Anonymous && cfg.Source.SMTP.Password == ""

/-- The configuration paths under which a required field is given. -/
def RequiredField.names : RequiredField → List String
  | .host => ["source.smtp.host"]
  | .port => ["source.smtp.port"]
  | .sender => ["source.from"]
  | .recipients => ["source.to", "params.to"]
  | .subject => ["params.subject"]
  | .username => ["source.smtp.username"]
  | .password => ["source.smtp.password"]

/-- The list of all required fields. -/
def RequiredField.all : List RequiredField :=
  [.host, .port, .sender, .recipients, .subject, .username, .password]

/-- Whether `text` contains `name` as a contiguous piece. -/
def mentions (text name : String) : Bool :=
  text.data.tails.any (fun rest => name.data.isPrefixOf rest)

/-- Whether an event is an SMTP send. -/
def Event.isSend : Event → Bool
  | .sendMail _ => true
  | .readFile _ => false

/-! ## Sample worlds -/

/-- A world for examples: `cfg` is what every non-empty input decodes to, `files`
the readable files with their contents, `env` the environment; `range` visits the
map in the order written, the record is serialised as `name=value` pairs, and the
SMTP server answers `smtp`. -/
def sampleWorld (cfg : Input) (files env : List (String × String)) (smtp : Option String) :
    World where
  getenv := fun key => (env.lookup key).getD ""
  unmarshal := fun input =>
    if input = [] then .error "unexpected end of JSON input" else .ok cfg
  isAbs := fun path => path.data.head? = some '/'
  join := fun dir path => dir ++ "/" ++ path
  readFile := fun path =>
    match files.lookup path with
    | some content => (content, none)
    | none => ("", some "no such file or directory")
  rangeOrder := fun _ entries => entries
  now := 0
  marshal := fun out => .ok (Join (out.Metadata.map (fun item => item.Name ++ "=" ++ item.Value)) ";")
  sendMail := fun _ => smtp

/-- A configuration with nothing missing: anonymous, one static recipient, a
subject file and a body file. -/
def sampleConfig : Input where
  Source := ⟨⟨"smtp.test", "587", "", "", true⟩, "a@x.com", ["b@x.com"]⟩
  Params := ⟨"subject.txt", "body.txt", "", "", false⟩

/-- The files of the examples. -/
def sampleFiles : List (String × String) :=
  [("/src/subject.txt", "Hi ${BUILD_ID}\n"), ("/src/body.txt", "Build ${BUILD_ID} done\n"),
   ("/src/empty.txt", ""), ("/src/to.txt", "c@x.com, d@x.com ,"),
   ("/src/headers.txt", "X-Build: ${BUILD_NAME}\n")]

/-- The environment of the examples. -/
def sampleEnv : List (String × String) :=
  [("BUILD_ID", "42"), ("BUILD_NAME", "7")]

/-- A configuration with host, port and password missing and `anonymous` false. -/
def incompleteConfig : Input where
  Source := ⟨⟨"", "", "user", "", false⟩, "a@x.com", ["b@x.com"]⟩
  Params := ⟨"subject.txt", "body.txt", "", "", false⟩

/-- A configuration in which only the port is missing. -/
def portlessConfig : Input where
  Source := ⟨⟨"smtp.test", "", "user", "secret", false⟩, "a@x.com", ["b@x.com"]⟩
  Params := ⟨"subject.txt", "body.txt", "", "", false⟩

/-- A configuration without a body file, `send_empty_body` false. -/
def bodylessConfig : Input where
  Source := ⟨⟨"smtp.test", "587", "", "", true⟩, "a@x.com", ["b@x.com"]⟩
  Params := ⟨"subject.txt", "", "", "", false⟩

/-- Whether a string has neither a leading nor a trailing white-space character. -/
def isTrimmed (s : String) : Bool :=
  s.data.head?.all (fun c => !isSpace c) && s.data.getLast?.all (fun c => !isSpace c)

/-- A configuration whose only recipients come from a file, here an empty one. -/
def emptyListConfig : Input where
  Source := ⟨⟨"smtp.test", "587", "", "", true⟩, "a@x.com", []⟩
  Params := ⟨"subject.txt", "body.txt", "", "empty.txt", false⟩

/-- A configuration whose static recipient is written with surrounding blanks. -/
def paddedConfig : Input where
  Source := ⟨⟨"smtp.test", "587", "", "", true⟩, "a@x.com", [" b@x.com "]⟩
  Params := ⟨"subject.txt", "body.txt", "", "", false⟩

/-- A configuration with a static recipient, a recipients file and a headers file. -/
def fullConfig : Input where
  Source := ⟨⟨"smtp.test", "587", "user", "secret", false⟩, "a@x.com", ["b@x.com"]⟩
  Params := ⟨"subject.txt", "body.txt", "headers.txt", "to.txt", false⟩

/-! ## Token substitution as the specification words it -/

/-- The scan of the single simultaneous substitution: at each position of the
original content the placeholder that begins there, if any, is replaced by its
value and skipped; any other character is copied. -/
def substituteScan (table : List (List Char × List Char)) : Nat → List Char → List Char
  | _, [] => []
  | skip + 1, _ :: s => substituteScan table skip s
  | 0, c :: s =>
    match table.find? (fun kv => kv.1.isPrefixOf (c :: s)) with
    | some kv => kv.2 ++ substituteScan table (kv.1.length - 1) s
    | none => c :: substituteScan table 0 s

/-- The content `s` with each occurrence of a placeholder of `table` replaced by
its value and all other text untouched. -/
def substituteAll (table : List (String × String)) (s : String) : String :=
  ⟨substituteScan (table.map (fun kv => (kv.1.data, kv.2.data))) 0 s.data⟩

/-- Whether every `$` of a text begins one of the `keys`. -/
def dollarsBeginKeys (keys : List (List Char)) : List Char → Bool
  | [] => true
  | c :: s => (c != '$' || keys.any (fun k => k.isPrefixOf (c :: s))) && dollarsBeginKeys keys s

/-- Whether every `$` of a content begins one of the six placeholders. -/
def dollarsBeginPlaceholders (content : String) : Bool :=
  dollarsBeginKeys ((buildTokens (fun _ => "")).map (fun kv => kv.1.data)) content.data

/-- The facts about a table of placeholders the substitution theorems use: each
key is a `$` followed by text without `$`, an entry whose key begins another
entry's key is that entry, and no value contains `$`. -/
def TableFacts (table : List (List Char × List Char)) : Prop :=
  (∀ kv ∈ table, ∃ rest, kv.1 = '$' :: rest ∧ '$' ∉ rest) ∧
  (∀ e ∈ table, ∀ e' ∈ table, e.1 <+: e'.1 → e = e') ∧
  (∀ kv ∈ table, '$' ∉ kv.2)

/-- The environment given by a list of variables; an unset variable reads as the
empty string. -/
def envOf (env : List (String × String)) : String → String :=
  fun key => (env.lookup key).getD ""

/-- An environment in which two build variables hold each other's placeholder. -/
def cyclicEnv : List (String × String) :=
  [("BUILD_ID", "${BUILD_NAME}"), ("BUILD_NAME", "${BUILD_ID}")]

/-- An environment with `BUILD_ID` unset. -/
def nightlyEnv : List (String × String) :=
  [("BUILD_NAME", "nightly")]

/-! ## Further sample data -/

/-- The minimal configuration of the specification: anonymous, one static
recipient, a subject file, no body file; `send_empty_body` is true so that the
message is sent. -/
def minimalConfig : Input where
  Source := ⟨⟨"smtp.test", "587", "", "", true⟩, "a@x.com", ["b@x.com"]⟩
  Params := ⟨"subject.txt", "", "", "", true⟩

/-- The files of the minimal configuration. -/
def minimalFiles : List (String × String) :=
  [("/src/subject.txt", "Hi ${BUILD_ID}")]

/-- The environment of the minimal configuration. -/
def minimalEnv : List (String × String) :=
  [("BUILD_ID", "42")]

/-- A configuration whose files carry newlines around subject, headers and body. -/
def newlineConfig : Input where
  Source := ⟨⟨"smtp.test", "587", "", "", true⟩, "a@x.com", ["b@x.com"]⟩
  Params := ⟨"subject.txt", "body.txt", "headers.txt", "", false⟩

/-- Files with leading and trailing newlines. -/
def newlineFiles : List (String × String) :=
  [("/src/subject.txt", "\n\nHi ${BUILD_ID}\n"), ("/src/headers.txt", "\nX-A: 1\nX-B: 2\n\n"),
   ("/src/body.txt", "\nBuild ${BUILD_ID}\n\n")]

/-- The send events of a trace. -/
def sends (trace : List Event) : List Event :=
  trace.filter Event.isSend

/-- The sample world with the record serialised between brackets, so that no
serialisation is the empty text. -/
def bracketWorld (cfg : Input) (files env : List (String × String)) (smtp : Option String) :
    World :=
  { sampleWorld cfg files env smtp with
    marshal := fun out =>
      .ok ("[" ++ Join (out.Metadata.map (fun item => item.Name ++ "=" ++ item.Value)) ";" ++ "]") }


/-! ## Theorems -/

theorem length_eq_zero_iff_empty (s : String) : s.length = 0 ↔ s = "" := by
  cases s with
  | mk d =>
    show d.length = 0 ↔ String.mk d = String.mk []
    rw [List.length_eq_zero]
    constructor
    · intro h; rw [h]
    · intro h; injection h

/-- The checks of `validate` are the specification's list of requirements, in
the same order. -/
theorem validate_eq_firstViolation (cfg : Input) :
    validate cfg = (firstViolation cfg).map GoError.errorsNew := by
  unfold validate firstViolation requirementChecks
  simp only [length_eq_zero_iff_empty, List.length_eq_zero]
  by_cases h1 : cfg.Source.SMTP.Host = ""
  · simp [h1, List.find?]
  have e1 : (cfg.Source.SMTP.Host == "") = false := by simpa using h1
  by_cases h2 : cfg.Source.SMTP.Port = ""
  · simp [h1, h2, e1, List.find?]
  have e2 : (cfg.Source.SMTP.Port == "") = false := by simpa using h2
  by_cases h3 : cfg.Source.From = ""
  · simp [h1, h2, h3, e1, e2, List.find?]
  have e3 : (cfg.Source.From == "") = false := by simpa using h3
  by_cases h4 : cfg.Source.To = [] ∧ cfg.Params.To = ""
  · have e4 : (cfg.Source.To.isEmpty && cfg.Params.To == "") = true := by
      simp [h4.1, h4.2]
    simp [h1, h2, h3, h4, e1, e2, e3, e4, List.find?]
  have e4 : (cfg.Source.To.isEmpty && cfg.Params.To == "") = false := by
    rw [Bool.eq_false_iff]
    intro h
    simp only [Bool.and_eq_true, List.isEmpty_iff, beq_iff_eq] at h
    exact h4 h
  by_cases h5 : cfg.Params.Subject = ""
  · simp [h1, h2, h3, h4, h5, e1, e2, e3, e4, List.find?]
  have e5 : (cfg.Params.Subject == "") = false := by simpa using h5
  cases ha : cfg.Source.SMTP.Anonymous
  · by_cases h6 : cfg.Source.SMTP.Username = ""
    · simp [h1, h2, h3, h4, h5, h6, e1, e2, e3, e4, e5, List.find?]
    have e6 : (cfg.Source.SMTP.Username == "") = false := by simpa using h6
    by_cases h7 : cfg.Source.SMTP.Password = ""
    · simp [h1, h2, h3, h4, h5, h6, h7, e1, e2, e3, e4, e5, e6, List.find?]
    have e7 : (cfg.Source.SMTP.Password == "") = false := by simpa using h7
    simp [h1, h2, h3, h4, h5, h6, h7, e1, e2, e3, e4, e5, e6, e7, List.find?]
  · simp [h1, h2, h3, h4, h5, e1, e2, e3, e4, e5, List.find?]

/-- A configuration that fails a check ends `Execute` at once. -/
theorem Execute_of_invalid (w : World) (sourceRoot version : String) (input : List UInt8)
    (cfg : Input) (err : GoError) (hroot : sourceRoot ≠ "") (hdec : w.unmarshal input = .ok cfg)
    (hbad : validate cfg = some err) :
    Execute w sourceRoot version input = ⟨"", some err, []⟩ := by
  simp [Execute, hroot, hdec, hbad]

/-- A configuration that passes the checks and whose files resolve goes on to
`deliver`. -/
theorem Execute_of_resolved (w : World) (sourceRoot version : String) (input : List UInt8)
    (cfg : Input) (r : Resolved) (tr : List Event) (hroot : sourceRoot ≠ "")
    (hdec : w.unmarshal input = .ok cfg) (hvalid : validate cfg = none)
    (hres : resolve w sourceRoot cfg = (.ok r, tr)) :
    Execute w sourceRoot version input =
      ⟨(deliver w version cfg r).payload, (deliver w version cfg r).err,
        tr ++ (deliver w version cfg r).trace⟩ := by
  simp [Execute, hroot, hdec, hvalid, hres]

/-- A read that fails after validation ends `Execute` with the read error. -/
theorem Execute_of_unresolved (w : World) (sourceRoot version : String) (input : List UInt8)
    (cfg : Input) (err : GoError) (tr : List Event) (hroot : sourceRoot ≠ "")
    (hdec : w.unmarshal input = .ok cfg) (hvalid : validate cfg = none)
    (hres : resolve w sourceRoot cfg = (.error err, tr)) :
    Execute w sourceRoot version input = ⟨"", some err, tr⟩ := by
  simp [Execute, hroot, hdec, hvalid, hres]

/-- An error of `readSource` is the error of the file read. -/
theorem readSource_err_kind (w : World) (sourceRoot : String) (site : ReadSite)
    (sourcePath : String) (err : GoError)
    (h : (readSource w sourceRoot site sourcePath).2 = some err) : ∃ text, err = .readFile text := by
  unfold readSource at h
  simp only [Option.map_eq_some'] at h
  obtain ⟨text, _, rfl⟩ := h
  exact ⟨text, rfl⟩

/-- An error of the subject block is a file-read error. -/
theorem resolveSubject_err_kind (w : World) (sourceRoot : String) (cfg : Input) (err : GoError)
    (tr : List Event) (h : resolveSubject w sourceRoot cfg = (.error err, tr)) :
    ∃ text, err = .readFile text := by
  unfold resolveSubject at h
  rcases hr : readSource w sourceRoot .subject cfg.Params.Subject with ⟨content, _ | e⟩
  · rw [hr] at h; simp at h
  · rw [hr] at h
    simp only [Prod.mk.injEq, Except.error.injEq] at h
    obtain ⟨rfl, _⟩ := h
    exact readSource_err_kind w sourceRoot _ _ e (by rw [hr])

/-- An error of the headers block is a file-read error. -/
theorem resolveHeaders_err_kind (w : World) (sourceRoot : String) (cfg : Input) (err : GoError)
    (tr : List Event) (h : resolveHeaders w sourceRoot cfg = (.error err, tr)) :
    ∃ text, err = .readFile text := by
  unfold resolveHeaders at h
  split at h
  · rcases hr : readSource w sourceRoot .headers cfg.Params.Headers with ⟨content, _ | e⟩
    · rw [hr] at h; simp at h
    · rw [hr] at h
      simp only [Prod.mk.injEq, Except.error.injEq] at h
      obtain ⟨rfl, _⟩ := h
      exact readSource_err_kind w sourceRoot _ _ e (by rw [hr])
  · simp at h

/-- An error of the body block is a file-read error. -/
theorem resolveBody_err_kind (w : World) (sourceRoot : String) (cfg : Input) (err : GoError)
    (tr : List Event) (h : resolveBody w sourceRoot cfg = (.error err, tr)) :
    ∃ text, err = .readFile text := by
  unfold resolveBody at h
  split at h
  · rcases hr : readSource w sourceRoot .body cfg.Params.Body with ⟨content, _ | e⟩
    · rw [hr] at h; simp at h
    · rw [hr] at h
      simp only [Prod.mk.injEq, Except.error.injEq] at h
      obtain ⟨rfl, _⟩ := h
      exact readSource_err_kind w sourceRoot _ _ e (by rw [hr])
  · simp at h

/-- An error of the recipients block is a file-read error. -/
theorem resolveTo_err_kind (w : World) (sourceRoot : String) (cfg : Input) (err : GoError)
    (tr : List Event) (h : resolveTo w sourceRoot cfg = (.error err, tr)) :
    ∃ text, err = .readFile text := by
  unfold resolveTo at h
  split at h
  · rcases hr : readSource w sourceRoot .toList cfg.Params.To with ⟨content, _ | e⟩
    · rw [hr] at h
      simp only at h
      split at h <;> simp at h
    · rw [hr] at h
      simp only [Prod.mk.injEq, Except.error.injEq] at h
      obtain ⟨rfl, _⟩ := h
      exact readSource_err_kind w sourceRoot _ _ e (by rw [hr])
  · simp at h

/-- The four blocks of `resolve`, one after the other. -/
theorem resolve_cases (w : World) (sourceRoot : String) (cfg : Input) :
    (∃ err t1, resolveSubject w sourceRoot cfg = (.error err, t1) ∧
      resolve w sourceRoot cfg = (.error err, t1)) ∨
    (∃ subject t1 err t2, resolveSubject w sourceRoot cfg = (.ok subject, t1) ∧
      resolveHeaders w sourceRoot cfg = (.error err, t2) ∧
      resolve w sourceRoot cfg = (.error err, t1 ++ t2)) ∨
    (∃ subject t1 headers t2 err t3, resolveSubject w sourceRoot cfg = (.ok subject, t1) ∧
      resolveHeaders w sourceRoot cfg = (.ok headers, t2) ∧
      resolveBody w sourceRoot cfg = (.error err, t3) ∧
      resolve w sourceRoot cfg = (.error err, t1 ++ t2 ++ t3)) ∨
    (∃ subject t1 headers t2 body t3 err t4, resolveSubject w sourceRoot cfg = (.ok subject, t1) ∧
      resolveHeaders w sourceRoot cfg = (.ok headers, t2) ∧
      resolveBody w sourceRoot cfg = (.ok body, t3) ∧
      resolveTo w sourceRoot cfg = (.error err, t4) ∧
      resolve w sourceRoot cfg = (.error err, t1 ++ t2 ++ t3 ++ t4)) ∨
    (∃ subject t1 headers t2 body t3 sourceTo t4,
      resolveSubject w sourceRoot cfg = (.ok subject, t1) ∧
      resolveHeaders w sourceRoot cfg = (.ok headers, t2) ∧
      resolveBody w sourceRoot cfg = (.ok body, t3) ∧
      resolveTo w sourceRoot cfg = (.ok sourceTo, t4) ∧
      resolve w sourceRoot cfg = (.ok ⟨subject, headers, body, sourceTo⟩, t1 ++ t2 ++ t3 ++ t4)) := by
  unfold resolve
  rcases h1 : resolveSubject w sourceRoot cfg with ⟨e1 | subject, t1⟩
  · exact Or.inl ⟨e1, t1, rfl, rfl⟩
  rcases h2 : resolveHeaders w sourceRoot cfg with ⟨e2 | headers, t2⟩
  · exact Or.inr (Or.inl ⟨subject, t1, e2, t2, rfl, rfl, rfl⟩)
  rcases h3 : resolveBody w sourceRoot cfg with ⟨e3 | body, t3⟩
  · exact Or.inr (Or.inr (Or.inl ⟨subject, t1, headers, t2, e3, t3, rfl, rfl, rfl, rfl⟩))
  rcases h4 : resolveTo w sourceRoot cfg with ⟨e4 | sourceTo, t4⟩
  · exact Or.inr (Or.inr (Or.inr (Or.inl
      ⟨subject, t1, headers, t2, body, t3, e4, t4, rfl, rfl, rfl, rfl, rfl⟩)))
  · exact Or.inr (Or.inr (Or.inr (Or.inr
      ⟨subject, t1, headers, t2, body, t3, sourceTo, t4, rfl, rfl, rfl, rfl, rfl⟩)))

/-- An error of `resolve` is a file-read error. -/
theorem resolve_err_kind (w : World) (sourceRoot : String) (cfg : Input) (err : GoError)
    (tr : List Event) (h : resolve w sourceRoot cfg = (.error err, tr)) :
    ∃ text, err = .readFile text := by
  rcases resolve_cases w sourceRoot cfg with
    ⟨e, t1, h1, hr⟩ | ⟨_, t1, e, t2, _, h2, hr⟩ | ⟨_, t1, _, t2, e, t3, _, _, h3, hr⟩ |
    ⟨_, t1, _, t2, _, t3, e, t4, _, _, _, h4, hr⟩ | ⟨_, t1, _, t2, _, t3, _, t4, _, _, _, _, hr⟩
  · rw [hr] at h; simp only [Prod.mk.injEq, Except.error.injEq] at h
    obtain ⟨rfl, _⟩ := h
    exact resolveSubject_err_kind w sourceRoot cfg e t1 h1
  · rw [hr] at h; simp only [Prod.mk.injEq, Except.error.injEq] at h
    obtain ⟨rfl, _⟩ := h
    exact resolveHeaders_err_kind w sourceRoot cfg e t2 h2
  · rw [hr] at h; simp only [Prod.mk.injEq, Except.error.injEq] at h
    obtain ⟨rfl, _⟩ := h
    exact resolveBody_err_kind w sourceRoot cfg e t3 h3
  · rw [hr] at h; simp only [Prod.mk.injEq, Except.error.injEq] at h
    obtain ⟨rfl, _⟩ := h
    exact resolveTo_err_kind w sourceRoot cfg e t4 h4
  · rw [hr] at h; simp at h

/-- The three ways `deliver` can end in an error, and what it returns in each. -/
theorem deliver_err_cases (w : World) (version : String) (cfg : Input) (r : Resolved)
    (err : GoError) (h : (deliver w version cfg r).err = some err) :
    ((∃ text, err = .jsonMarshal text) ∧ (deliver w version cfg r).payload = "") ∨
    (err = emptyBodyError ∧ cfg.Params.SendEmptyBody = false ∧ r.body.length = 0 ∧
      (deliver w version cfg r).trace = [] ∧
      w.marshal (outputRecord w version cfg r.subject) = .ok (deliver w version cfg r).payload) ∨
    ((∃ text, err = .sendMail text) ∧ (deliver w version cfg r).payload = "") := by
  unfold deliver at h ⊢
  cases hm : w.marshal (outputRecord w version cfg r.subject) with
  | error e =>
    rw [hm] at h
    simp only [Option.some.injEq] at h
    exact Or.inl ⟨⟨e, h.symm⟩, rfl⟩
  | ok outbytes =>
    rw [hm] at h
    simp only at h ⊢
    by_cases hempty : cfg.Params.SendEmptyBody = false ∧ r.body.length = 0
    · rw [if_pos hempty] at h ⊢
      simp only [Option.some.injEq] at h
      exact Or.inr (Or.inl ⟨h.symm, hempty.1, hempty.2, rfl, rfl⟩)
    · rw [if_neg hempty] at h ⊢
      cases hs : w.sendMail (sendRequest cfg r.To
          (assembleMessage r.To cfg.Source.From r.headers r.subject r.body)) with
      | none => rw [hs] at h; simp at h
      | some e =>
        rw [hs] at h
        simp only [Option.some.injEq] at h
        exact Or.inr (Or.inr ⟨⟨e, h.symm⟩, rfl⟩)

/-- C1: for a non-empty source root and a configuration that decodes, `Execute`
returns the error of the earliest violated requirement in the order host, port,
from, recipients, subject, then (only when anonymous is false) user name and
password; when anonymous is true no error of `Execute` is the user-name or the
password error. -/
theorem Execute_reports_first_violation (w : World) (sourceRoot version : String)
    (input : List UInt8) (cfg : Input) (hroot : sourceRoot ≠ "")
    (hdec : w.unmarshal input = .ok cfg) :
    (∀ text, firstViolation cfg = some text →
      Execute w sourceRoot version input = ⟨"", some (.errorsNew text), []⟩) ∧
    (firstViolation cfg = none → validate cfg = none) ∧
    (cfg.Source.SMTP.Anonymous = true →
      (Execute w sourceRoot version input).err ≠ some (.errorsNew
        "missing required field \"source.smtp.username\" if anonymous specify anonymous: true") ∧
      (Execute w sourceRoot version input).err ≠ some (.errorsNew
        "missing required field \"source.smtp.password\" if anonymous specify anonymous: true")) := by
  refine ⟨?_, ?_, ?_⟩
  · intro text h
    apply Execute_of_invalid w sourceRoot version input cfg _ hroot hdec
    rw [validate_eq_firstViolation, h]; rfl
  · intro h
    rw [validate_eq_firstViolation, h]; rfl
  · intro ha
    have hv : validate cfg ≠ some (.errorsNew
          "missing required field \"source.smtp.username\" if anonymous specify anonymous: true") ∧
        validate cfg ≠ some (.errorsNew
          "missing required field \"source.smtp.password\" if anonymous specify anonymous: true") := by
      unfold validate
      rw [ha]
      constructor <;> (split_ifs <;> first | contradiction | simp)
    cases hval : validate cfg with
    | some e =>
      rw [Execute_of_invalid w sourceRoot version input cfg e hroot hdec hval]
      rw [hval] at hv
      exact hv
    | none =>
      rcases hres : resolve w sourceRoot cfg with ⟨e | r, tr⟩
      · rw [Execute_of_unresolved w sourceRoot version input cfg e tr hroot hdec hval hres]
        obtain ⟨text, rfl⟩ := resolve_err_kind w sourceRoot cfg e tr hres
        constructor <;> simp
      · rw [Execute_of_resolved w sourceRoot version input cfg r tr hroot hdec hval hres]
        simp only
        cases hd : (deliver w version cfg r).err with
        | none => constructor <;> simp
        | some e =>
          rcases deliver_err_cases w version cfg r e hd with
            ⟨⟨text, rfl⟩, _⟩ | ⟨rfl, _⟩ | ⟨⟨text, rfl⟩, _⟩
          · constructor <;> simp
          · constructor <;> (unfold emptyBodyError; simp)
          · constructor <;> simp

/-- Witness of C1: host, port and password are missing and the host is reported. -/
theorem Execute_reports_first_violation_witness :
    (∀ text, firstViolation incompleteConfig = some text →
      Execute (sampleWorld incompleteConfig sampleFiles sampleEnv none) "/src" "v1" [123] =
        ⟨"", some (.errorsNew text), []⟩) ∧
    (firstViolation incompleteConfig = none → validate incompleteConfig = none) ∧
    (incompleteConfig.Source.SMTP.Anonymous = true →
      (Execute (sampleWorld incompleteConfig sampleFiles sampleEnv none) "/src" "v1" [123]).err ≠
        some (.errorsNew
        "missing required field \"source.smtp.username\" if anonymous specify anonymous: true") ∧
      (Execute (sampleWorld incompleteConfig sampleFiles sampleEnv none) "/src" "v1" [123]).err ≠
        some (.errorsNew
        "missing required field \"source.smtp.password\" if anonymous specify anonymous: true")) :=
  Execute_reports_first_violation (sampleWorld incompleteConfig sampleFiles sampleEnv none)
    "/src" "v1" [123] incompleteConfig (by decide) rfl

/-- When both `source.to` and `params.to` are absent, `validate` fails. -/
theorem validate_of_no_recipients (cfg : Input) (h1 : cfg.Source.To = [])
    (h2 : cfg.Params.To = "") : ∃ err, validate cfg = some err := by
  unfold validate
  have h3 : cfg.Source.To.length = 0 ∧ cfg.Params.To.length = 0 := by
    rw [h1, h2]; exact ⟨rfl, rfl⟩
  split_ifs <;> exact ⟨_, rfl⟩

/-- C2: when exactly one required field is missing, `Execute` returns an error
whose text names that field and no other required field, having read no file and
sent nothing; and whenever `source.to` and `params.to` are both absent it returns
an error before any file read or send. -/
theorem Execute_names_the_missing_field (w : World) (sourceRoot version : String)
    (input : List UInt8) (cfg : Input) (hroot : sourceRoot ≠ "")
    (hdec : w.unmarshal input = .ok cfg) :
    (∀ f : RequiredField, (∀ g : RequiredField, g.missing cfg = true ↔ g = f) →
      ∃ text, Execute w sourceRoot version input = ⟨"", some (.errorsNew text), []⟩ ∧
        (∀ name ∈ f.names, mentions text name = true) ∧
        (∀ g : RequiredField, g ≠ f → ∀ name ∈ g.names, mentions text name = false)) ∧
    (cfg.Source.To = [] → cfg.Params.To = "" →
      ∃ err, Execute w sourceRoot version input = ⟨"", some err, []⟩) := by
  constructor
  · intro f hf
    have e : ∀ g : RequiredField, g.missing cfg = decide (g = f) := by
      intro g
      rw [Bool.eq_iff_iff]
      simpa using hf g
    have e1 := e .host
    have e2 := e .port
    have e3 := e .sender
    have e4 := e .recipients
    have e5 := e .subject
    have e6 := e .username
    have e7 := e .password
    simp only [RequiredField.missing] at e1 e2 e3 e4 e5 e6 e7
    have key : ∀ text, firstViolation cfg = some text →
        Execute w sourceRoot version input = ⟨"", some (.errorsNew text), []⟩ := by
      intro text h
      apply Execute_of_invalid w sourceRoot version input cfg _ hroot hdec
      rw [validate_eq_firstViolation, h]; rfl
    cases f
    · refine ⟨"missing required field \"source.smtp.host\"",
        key _ ?_, by decide, ?_⟩
      · simp only [firstViolation, requirementChecks, e1, e2, e3, e4, e5, e6, e7]
        rfl
      · intro g hg; cases g <;> first | exact absurd rfl hg | decide
    · refine ⟨"missing required field \"source.smtp.port\"",
        key _ ?_, by decide, ?_⟩
      · simp only [firstViolation, requirementChecks, e1, e2, e3, e4, e5, e6, e7]
        rfl
      · intro g hg; cases g <;> first | exact absurd rfl hg | decide
    · refine ⟨"missing required field \"source.from\"",
        key _ ?_, by decide, ?_⟩
      · simp only [firstViolation, requirementChecks, e1, e2, e3, e4, e5, e6, e7]
        rfl
      · intro g hg; cases g <;> first | exact absurd rfl hg | decide
    · refine ⟨"missing required field \"source.to\" or \"params.to\". Must specify at least one",
        key _ ?_, by decide, ?_⟩
      · simp only [firstViolation, requirementChecks, e1, e2, e3, e4, e5, e6, e7]
        rfl
      · intro g hg; cases g <;> first | exact absurd rfl hg | decide
    · refine ⟨"missing required field \"params.subject\"",
        key _ ?_, by decide, ?_⟩
      · simp only [firstViolation, requirementChecks, e1, e2, e3, e4, e5, e6, e7]
        rfl
      · intro g hg; cases g <;> first | exact absurd rfl hg | decide
    · refine ⟨"missing required field \"source.smtp.username\" if anonymous specify anonymous: true",
        key _ ?_, by decide, ?_⟩
      · simp only [firstViolation, requirementChecks, e1, e2, e3, e4, e5, e6, e7]
        rfl
      · intro g hg; cases g <;> first | exact absurd rfl hg | decide
    · refine ⟨"missing required field \"source.smtp.password\" if anonymous specify anonymous: true",
        key _ ?_, by decide, ?_⟩
      · simp only [firstViolation, requirementChecks, e1, e2, e3, e4, e5, e6, e7]
        rfl
      · intro g hg; cases g <;> first | exact absurd rfl hg | decide
  · intro h1 h2
    obtain ⟨err, herr⟩ := validate_of_no_recipients cfg h1 h2
    exact ⟨err, Execute_of_invalid w sourceRoot version input cfg err hroot hdec herr⟩

/-- Witness of C2: only the port is missing, and the error names `source.smtp.port`. -/
theorem Execute_names_the_missing_field_witness :
    ∃ text, Execute (sampleWorld portlessConfig sampleFiles sampleEnv none) "/src" "v1" [123] =
        ⟨"", some (.errorsNew text), []⟩ ∧
      (∀ name ∈ RequiredField.port.names, mentions text name = true) ∧
      (∀ g : RequiredField, g ≠ .port → ∀ name ∈ g.names, mentions text name = false) :=
  (Execute_names_the_missing_field (sampleWorld portlessConfig sampleFiles sampleEnv none)
    "/src" "v1" [123] portlessConfig (by decide) rfl).1 .port
    (by intro g; cases g <;> decide)

/-- Every event of the subject block is a file read. -/
theorem resolveSubject_reads (w : World) (sourceRoot : String) (cfg : Input) :
    ∀ ev ∈ (resolveSubject w sourceRoot cfg).2, ev.isSend = false := by
  unfold resolveSubject
  rcases readSource w sourceRoot .subject cfg.Params.Subject with ⟨content, _ | e⟩ <;>
    simp [readEvent, Event.isSend]

/-- Every event of the headers block is a file read. -/
theorem resolveHeaders_reads (w : World) (sourceRoot : String) (cfg : Input) :
    ∀ ev ∈ (resolveHeaders w sourceRoot cfg).2, ev.isSend = false := by
  unfold resolveHeaders
  split
  · rcases readSource w sourceRoot .headers cfg.Params.Headers with ⟨content, _ | e⟩ <;>
      simp [readEvent, Event.isSend]
  · simp

/-- Every event of the body block is a file read. -/
theorem resolveBody_reads (w : World) (sourceRoot : String) (cfg : Input) :
    ∀ ev ∈ (resolveBody w sourceRoot cfg).2, ev.isSend = false := by
  unfold resolveBody
  split
  · rcases readSource w sourceRoot .body cfg.Params.Body with ⟨content, _ | e⟩ <;>
      simp [readEvent, Event.isSend]
  · simp

/-- Every event of the recipients block is a file read. -/
theorem resolveTo_reads (w : World) (sourceRoot : String) (cfg : Input) :
    ∀ ev ∈ (resolveTo w sourceRoot cfg).2, ev.isSend = false := by
  unfold resolveTo
  split
  · rcases readSource w sourceRoot .toList cfg.Params.To with ⟨content, _ | e⟩
    · simp only
      split <;> simp [readEvent, Event.isSend]
    · simp [readEvent, Event.isSend]
  · simp

/-- Every event of `resolve` is a file read. -/
theorem resolve_reads (w : World) (sourceRoot : String) (cfg : Input) :
    ∀ ev ∈ (resolve w sourceRoot cfg).2, ev.isSend = false := by
  have s1 := resolveSubject_reads w sourceRoot cfg
  have s2 := resolveHeaders_reads w sourceRoot cfg
  have s3 := resolveBody_reads w sourceRoot cfg
  have s4 := resolveTo_reads w sourceRoot cfg
  rcases resolve_cases w sourceRoot cfg with
    ⟨e, t1, h1, hr⟩ | ⟨_, t1, e, t2, h1, h2, hr⟩ | ⟨_, t1, _, t2, e, t3, h1, h2, h3, hr⟩ |
    ⟨_, t1, _, t2, _, t3, e, t4, h1, h2, h3, h4, hr⟩ |
    ⟨_, t1, _, t2, _, t3, _, t4, h1, h2, h3, h4, hr⟩ <;>
  · rw [hr]
    simp only [h1] at s1
    try simp only [h2] at s2
    try simp only [h3] at s3
    try simp only [h4] at s4
    intro ev hev
    simp only [List.mem_append] at hev
    first
    | exact s1 ev hev
    | (rcases hev with hev | hev
       · exact s1 ev hev
       · exact s2 ev hev)
    | (rcases hev with (hev | hev) | hev
       · exact s1 ev hev
       · exact s2 ev hev
       · exact s3 ev hev)
    | (rcases hev with ((hev | hev) | hev) | hev
       · exact s1 ev hev
       · exact s2 ev hev
       · exact s3 ev hev
       · exact s4 ev hev)

/-- The subject block on a readable subject file. -/
theorem resolveSubject_ok (w : World) (sourceRoot : String) (cfg : Input) (bytes : String)
    (h : w.readFile (sourceFile w sourceRoot cfg.Params.Subject) = (bytes, none)) :
    resolveSubject w sourceRoot cfg =
      (.ok (Trim (replaceTokens (w.rangeOrder .subject (buildTokens w.getenv)) bytes) "\n"),
        [readEvent w sourceRoot cfg.Params.Subject]) := by
  simp [resolveSubject, readSource, h]

/-- The headers block when the headers file, if one is given, is readable. -/
theorem resolveHeaders_ok (w : World) (sourceRoot : String) (cfg : Input)
    (h : cfg.Params.Headers ≠ "" →
      (w.readFile (sourceFile w sourceRoot cfg.Params.Headers)).2 = none) :
    ∃ headers tr, resolveHeaders w sourceRoot cfg = (.ok headers, tr) := by
  unfold resolveHeaders
  by_cases hp : cfg.Params.Headers = ""
  · simp [hp]
  · have h2 := h hp
    rcases hr : w.readFile (sourceFile w sourceRoot cfg.Params.Headers) with ⟨bytes, e⟩
    rw [hr] at h2
    simp only at h2
    subst h2
    simp [hp, readSource, hr]

/-- The body block when no body file is given. -/
theorem resolveBody_absent (w : World) (sourceRoot : String) (cfg : Input)
    (h : cfg.Params.Body = "") : resolveBody w sourceRoot cfg = (.ok "", []) := by
  simp [resolveBody, h]

/-- The body block on a readable body file. -/
theorem resolveBody_ok (w : World) (sourceRoot : String) (cfg : Input) (bytes : String)
    (hp : cfg.Params.Body ≠ "")
    (h : w.readFile (sourceFile w sourceRoot cfg.Params.Body) = (bytes, none)) :
    resolveBody w sourceRoot cfg =
      (.ok (replaceTokens (w.rangeOrder .body (buildTokens w.getenv)) bytes),
        [readEvent w sourceRoot cfg.Params.Body]) := by
  simp [resolveBody, readSource, h, hp]

/-- The recipients block when the recipients file, if one is given, is readable. -/
theorem resolveTo_ok (w : World) (sourceRoot : String) (cfg : Input)
    (h : cfg.Params.To ≠ "" → (w.readFile (sourceFile w sourceRoot cfg.Params.To)).2 = none) :
    ∃ sourceTo tr, resolveTo w sourceRoot cfg = (.ok sourceTo, tr) := by
  unfold resolveTo
  by_cases hp : cfg.Params.To = ""
  · simp [hp]
  · have h2 := h hp
    rcases hr : w.readFile (sourceFile w sourceRoot cfg.Params.To) with ⟨bytes, e⟩
    rw [hr] at h2
    simp only at h2
    subst h2
    simp only [ne_eq, hp, not_false_eq_true, ↓reduceIte, readSource, hr, Option.map_none']
    split <;> simp

/-- When the four blocks succeed, `resolve` returns their values. -/
theorem resolve_of_blocks (w : World) (sourceRoot : String) (cfg : Input)
    (subject headers body : String) (sourceTo : List String) (t1 t2 t3 t4 : List Event)
    (h1 : resolveSubject w sourceRoot cfg = (.ok subject, t1))
    (h2 : resolveHeaders w sourceRoot cfg = (.ok headers, t2))
    (h3 : resolveBody w sourceRoot cfg = (.ok body, t3))
    (h4 : resolveTo w sourceRoot cfg = (.ok sourceTo, t4)) :
    resolve w sourceRoot cfg = (.ok ⟨subject, headers, body, sourceTo⟩, t1 ++ t2 ++ t3 ++ t4) := by
  simp [resolve, h1, h2, h3, h4]

/-- With an empty body and `send_empty_body` false, `deliver` stops before the
send and returns the serialised record with the refusal. -/
theorem deliver_of_empty_body (w : World) (version : String) (cfg : Input) (r : Resolved)
    (payload : String) (hflag : cfg.Params.SendEmptyBody = false) (hbody : r.body.length = 0)
    (hm : w.marshal (outputRecord w version cfg r.subject) = .ok payload) :
    deliver w version cfg r = ⟨payload, some emptyBodyError, []⟩ := by
  simp [deliver, hm, hflag, hbody]

/-- C3: for a configuration that passes validation and whose referenced files are
readable, with `send_empty_body` false and a resolved body of length zero (no
body path, or an empty body after substitution), `Execute` sends nothing, returns
the empty-body error, and returns as payload the serialisation of the record
whose metadata has `smtp_host` equal to `source.smtp.host` and `subject` equal to
the substituted, newline-trimmed subject. -/
theorem Execute_refuses_empty_body (w : World) (sourceRoot version : String)
    (input : List UInt8) (cfg : Input) (subjectBytes payload : String)
    (hroot : sourceRoot ≠ "") (hdec : w.unmarshal input = .ok cfg)
    (hvalid : validate cfg = none)
    (hsubject : w.readFile (sourceFile w sourceRoot cfg.Params.Subject) = (subjectBytes, none))
    (hheaders : cfg.Params.Headers ≠ "" →
      (w.readFile (sourceFile w sourceRoot cfg.Params.Headers)).2 = none)
    (hbody : cfg.Params.Body = "" ∨
      ∃ bodyBytes, w.readFile (sourceFile w sourceRoot cfg.Params.Body) = (bodyBytes, none) ∧
        (replaceTokens (w.rangeOrder .body (buildTokens w.getenv)) bodyBytes).length = 0)
    (hto : cfg.Params.To ≠ "" → (w.readFile (sourceFile w sourceRoot cfg.Params.To)).2 = none)
    (hflag : cfg.Params.SendEmptyBody = false)
    (hm : w.marshal
        { Version := { Time := w.now }
          Metadata := [⟨"smtp_host", cfg.Source.SMTP.Host⟩,
            ⟨"subject",
              Trim (replaceTokens (w.rangeOrder .subject (buildTokens w.getenv)) subjectBytes)
                "\n"⟩,
            ⟨"version", version⟩] } = .ok payload) :
    (Execute w sourceRoot version input).payload = payload ∧
    (Execute w sourceRoot version input).err = some emptyBodyError ∧
    ∀ ev ∈ (Execute w sourceRoot version input).trace, ev.isSend = false := by
  have h1 := resolveSubject_ok w sourceRoot cfg subjectBytes hsubject
  obtain ⟨headers, t2, h2⟩ := resolveHeaders_ok w sourceRoot cfg hheaders
  obtain ⟨sourceTo, t4, h4⟩ := resolveTo_ok w sourceRoot cfg hto
  have h3 : ∃ body t3, resolveBody w sourceRoot cfg = (.ok body, t3) ∧ body.length = 0 := by
    rcases hbody with hb | ⟨bodyBytes, hb, hlen⟩
    · exact ⟨"", [], resolveBody_absent w sourceRoot cfg hb, rfl⟩
    · by_cases hp : cfg.Params.Body = ""
      · exact ⟨"", [], resolveBody_absent w sourceRoot cfg hp, rfl⟩
      · exact ⟨_, _, resolveBody_ok w sourceRoot cfg bodyBytes hp hb, hlen⟩
  obtain ⟨body, t3, h3, hlen⟩ := h3
  have hres := resolve_of_blocks w sourceRoot cfg _ headers body sourceTo _ t2 t3 t4 h1 h2 h3 h4
  have hreads := resolve_reads w sourceRoot cfg
  rw [hres] at hreads
  rw [Execute_of_resolved w sourceRoot version input cfg _ _ hroot hdec hvalid hres]
  rw [deliver_of_empty_body w version cfg
    ⟨Trim (replaceTokens (w.rangeOrder .subject (buildTokens w.getenv)) subjectBytes) "\n",
      headers, body, sourceTo⟩ payload hflag hlen hm]
  refine ⟨rfl, rfl, ?_⟩
  simpa using hreads

/-- Witness of C3: no body file is configured and `send_empty_body` is false. -/
theorem Execute_refuses_empty_body_witness :
    (Execute (sampleWorld bodylessConfig sampleFiles sampleEnv none) "/src" "v1" [123]).payload =
      "smtp_host=smtp.test;subject=Hi 42;version=v1" ∧
    (Execute (sampleWorld bodylessConfig sampleFiles sampleEnv none) "/src" "v1" [123]).err =
      some emptyBodyError ∧
    ∀ ev ∈ (Execute (sampleWorld bodylessConfig sampleFiles sampleEnv none) "/src" "v1"
      [123]).trace, ev.isSend = false :=
  Execute_refuses_empty_body (sampleWorld bodylessConfig sampleFiles sampleEnv none)
    "/src" "v1" [123] bodylessConfig "Hi ${BUILD_ID}\n"
    "smtp_host=smtp.test;subject=Hi 42;version=v1" (by decide) rfl (by decide) (by decide)
    (by decide) (Or.inl (by decide)) (by decide) (by decide) (by rfl)

/-- C4: whenever `Execute` returns an error other than the empty-body refusal
(missing source root, undecodable input, failed validation, unreadable file,
failed serialisation, failed send) the payload is empty; in particular a failed
send returns no output record. -/
theorem Execute_error_payload_empty (w : World) (sourceRoot version : String)
    (input : List UInt8) (err : GoError)
    (herr : (Execute w sourceRoot version input).err = some err)
    (hne : err ≠ emptyBodyError) :
    (Execute w sourceRoot version input).payload = "" := by
  unfold Execute at herr ⊢
  by_cases hroot : sourceRoot = ""
  · simp [hroot]
  · rw [if_neg hroot] at herr ⊢
    cases hdec : w.unmarshal input with
    | error e => simp
    | ok cfg =>
      rw [hdec] at herr
      simp only at herr ⊢
      cases hval : validate cfg with
      | some e => simp
      | none =>
        rw [hval] at herr
        simp only at herr ⊢
        rcases hres : resolve w sourceRoot cfg with ⟨e | r, tr⟩
        · simp
        · rw [hres] at herr
          simp only at herr ⊢
          rcases deliver_err_cases w version cfg r err herr with
            ⟨_, hp⟩ | ⟨he, _⟩ | ⟨_, hp⟩
          · exact hp
          · exact absurd he hne
          · exact hp

/-- Witness of C4: the SMTP server refuses the connection; the error is the send
error and the payload is empty. -/
theorem Execute_error_payload_empty_witness :
    (Execute (sampleWorld sampleConfig sampleFiles sampleEnv (some "connection refused"))
      "/src" "v1" [123]).err = some (.sendMail "connection refused") ∧
    GoError.sendMail "connection refused" ≠ emptyBodyError ∧
    (Execute (sampleWorld sampleConfig sampleFiles sampleEnv (some "connection refused"))
      "/src" "v1" [123]).payload = "" :=
  ⟨by decide, by decide,
    Execute_error_payload_empty
      (sampleWorld sampleConfig sampleFiles sampleEnv (some "connection refused"))
      "/src" "v1" [123] (.sendMail "connection refused") (by decide) (by decide)⟩

/-- A send in the trace of `Execute` is the one `deliver` makes, for a decoded,
valid configuration whose files resolved. -/
theorem Execute_send_inv (w : World) (sourceRoot version : String) (input : List UInt8)
    (req : SendRequest) (h : Event.sendMail req ∈ (Execute w sourceRoot version input).trace) :
    ∃ cfg r tr, w.unmarshal input = .ok cfg ∧ validate cfg = none ∧
      resolve w sourceRoot cfg = (.ok r, tr) ∧
      req = sendRequest cfg r.To
        (assembleMessage r.To cfg.Source.From r.headers r.subject r.body) := by
  unfold Execute at h
  by_cases hroot : sourceRoot = ""
  · simp [hroot] at h
  · rw [if_neg hroot] at h
    cases hdec : w.unmarshal input with
    | error e => rw [hdec] at h; simp at h
    | ok cfg =>
      rw [hdec] at h
      simp only at h
      cases hval : validate cfg with
      | some e => rw [hval] at h; simp at h
      | none =>
        rw [hval] at h
        simp only at h
        rcases hres : resolve w sourceRoot cfg with ⟨e | r, tr⟩
        · rw [hres] at h
          simp only at h
          have hreads := resolve_reads w sourceRoot cfg
          rw [hres] at hreads
          have := hreads _ h
          simp [Event.isSend] at this
        · rw [hres] at h
          simp only [List.mem_append] at h
          refine ⟨cfg, r, tr, rfl, hval, hres, ?_⟩
          rcases h with h | h
          · have hreads := resolve_reads w sourceRoot cfg
            rw [hres] at hreads
            have := hreads _ h
            simp [Event.isSend] at this
          · unfold deliver at h
            cases hm : w.marshal (outputRecord w version cfg r.subject) with
            | error e => rw [hm] at h; simp at h
            | ok outbytes =>
              rw [hm] at h
              simp only at h
              split at h
              · simp at h
              · cases hs : w.sendMail (sendRequest cfg r.To
                    (assembleMessage r.To cfg.Source.From r.headers r.subject r.body)) with
                | none => rw [hs] at h; simpa using h
                | some e => rw [hs] at h; simpa using h

/-- The helper of `String.intercalate` in terms of `Join`. -/
theorem intercalate_go_eq (sep : String) (rest : List String) (acc b : String) :
    String.intercalate.go acc sep (b :: rest) = acc ++ sep ++ Join (b :: rest) sep := by
  induction rest generalizing acc b with
  | nil => simp [String.intercalate.go, Join]
  | cons c rest ih =>
    rw [String.intercalate.go, ih]
    simp [Join, String.append_assoc]

/-- Go's `strings.Join` is the library's `intercalate`. -/
theorem Join_eq_intercalate (elems : List String) (sep : String) :
    Join elems sep = sep.intercalate elems := by
  cases elems with
  | nil => rfl
  | cons a rest =>
    cases rest with
    | nil => rfl
    | cons b rest =>
      rw [String.intercalate, intercalate_go_eq]
      simp [Join, String.append_assoc]

/-- C5: the assembled message is exactly `To: ` with the recipients joined by
`, `, a newline, `From: ` with the sender, a newline, the headers and a newline
when the headers are non-empty, `Subject: ` with the subject, a newline, a blank
line and the body; and every message `Execute` sends is assembled so from the
resolved values. -/
theorem assembleMessage_layout :
    (∀ (R : List String) (F H S B : String),
      assembleMessage R F H S B =
        "To: " ++ ", ".intercalate R ++ "\n" ++ "From: " ++ F ++ "\n" ++
          (if H = "" then "" else H ++ "\n") ++ "Subject: " ++ S ++ "\n" ++ "\n" ++ B) ∧
    (∀ (w : World) (sourceRoot version : String) (input : List UInt8) (req : SendRequest),
      Event.sendMail req ∈ (Execute w sourceRoot version input).trace →
      ∃ cfg r tr, w.unmarshal input = .ok cfg ∧ resolve w sourceRoot cfg = (.ok r, tr) ∧
        req.msg = "To: " ++ ", ".intercalate r.To ++ "\n" ++ "From: " ++ cfg.Source.From ++ "\n" ++
          (if r.headers = "" then "" else r.headers ++ "\n") ++ "Subject: " ++ r.subject ++
          "\n" ++ "\n" ++ r.body) := by
  have layout : ∀ (R : List String) (F H S B : String),
      assembleMessage R F H S B =
        "To: " ++ ", ".intercalate R ++ "\n" ++ "From: " ++ F ++ "\n" ++
          (if H = "" then "" else H ++ "\n") ++ "Subject: " ++ S ++ "\n" ++ "\n" ++ B := by
    intro R F H S B
    unfold assembleMessage
    rw [Join_eq_intercalate]
    by_cases hH : H = ""
    · simp only [hH, ne_eq, not_true_eq_false, ↓reduceIte, String.append_assoc,
        String.empty_append, String.append_empty]
    · simp only [hH, ne_eq, not_false_eq_true, ↓reduceIte, String.append_assoc,
        String.empty_append, String.append_empty]
  refine ⟨layout, ?_⟩
  intro w sourceRoot version input req h
  obtain ⟨cfg, r, tr, hdec, _, hres, hreq⟩ := Execute_send_inv w sourceRoot version input req h
  refine ⟨cfg, r, tr, hdec, hres, ?_⟩
  rw [hreq, ← layout]
  unfold sendRequest
  split <;> rfl

/-- A successful `resolve` is the success of its four blocks. -/
theorem resolve_ok_blocks (w : World) (sourceRoot : String) (cfg : Input) (r : Resolved)
    (tr : List Event) (h : resolve w sourceRoot cfg = (.ok r, tr)) :
    ∃ t1 t2 t3 t4, resolveSubject w sourceRoot cfg = (.ok r.subject, t1) ∧
      resolveHeaders w sourceRoot cfg = (.ok r.headers, t2) ∧
      resolveBody w sourceRoot cfg = (.ok r.body, t3) ∧
      resolveTo w sourceRoot cfg = (.ok r.To, t4) ∧ tr = t1 ++ t2 ++ t3 ++ t4 := by
  rcases resolve_cases w sourceRoot cfg with
    ⟨e, t1, _, hr⟩ | ⟨_, t1, e, t2, _, _, hr⟩ | ⟨_, t1, _, t2, e, t3, _, _, _, hr⟩ |
    ⟨_, t1, _, t2, _, t3, e, t4, _, _, _, _, hr⟩ |
    ⟨subject, t1, headers, t2, body, t3, sourceTo, t4, h1, h2, h3, h4, hr⟩
  · rw [hr] at h; simp at h
  · rw [hr] at h; simp at h
  · rw [hr] at h; simp at h
  · rw [hr] at h; simp at h
  · rw [hr] at h
    simp only [Prod.mk.injEq, Except.ok.injEq] at h
    obtain ⟨rfl, rfl⟩ := h
    exact ⟨t1, t2, t3, t4, h1, h2, h3, h4, rfl⟩

/-- The loop of lines 114-116 appends the trimmed pieces in order. -/
theorem foldl_append_trimmed (pieces : List String) (sourceTo : List String) :
    pieces.foldl (fun sourceTo toAddress => sourceTo ++ [TrimSpace toAddress]) sourceTo =
      sourceTo ++ pieces.map TrimSpace := by
  induction pieces generalizing sourceTo with
  | nil => simp
  | cons a rest ih => simp [ih]

/-- The recipients block on a readable recipients file with non-empty content. -/
theorem resolveTo_of_content (w : World) (sourceRoot : String) (cfg : Input) (bytes : String)
    (hpath : cfg.Params.To ≠ "")
    (hread : w.readFile (sourceFile w sourceRoot cfg.Params.To) = (bytes, none))
    (hc : replaceTokens (w.rangeOrder .toList (buildTokens w.getenv)) bytes ≠ "") :
    resolveTo w sourceRoot cfg =
      (.ok (cfg.Source.To ++
        (Split (replaceTokens (w.rangeOrder .toList (buildTokens w.getenv)) bytes) ",").map
          TrimSpace), [readEvent w sourceRoot cfg.Params.To]) := by
  have hlen : (replaceTokens (w.rangeOrder .toList (buildTokens w.getenv)) bytes).length > 0 := by
    rcases Nat.eq_zero_or_pos
      (replaceTokens (w.rangeOrder .toList (buildTokens w.getenv)) bytes).length with h | h
    · exact absurd ((length_eq_zero_iff_empty _).1 h) hc
    · exact h
  simp [resolveTo, readSource, hread, hpath, hlen, foldl_append_trimmed]

/-- C6: for a valid configuration with static list `source.to` and a readable
`params.to` file whose token-substituted content `c` is non-empty, the resolved
recipient list is `source.to` followed by the comma-split pieces of `c`, each
trimmed of surrounding white space, in file order; that list is the envelope
recipient list of every send and the list joined in its `To: ` header. -/
theorem recipients_static_then_file (w : World) (sourceRoot version : String)
    (input : List UInt8) (cfg : Input) (bytes : String)
    (hdec : w.unmarshal input = .ok cfg) (hpath : cfg.Params.To ≠ "")
    (hread : w.readFile (sourceFile w sourceRoot cfg.Params.To) = (bytes, none))
    (hc : replaceTokens (w.rangeOrder .toList (buildTokens w.getenv)) bytes ≠ "") :
    (resolveTo w sourceRoot cfg).1 = .ok (cfg.Source.To ++
      (Split (replaceTokens (w.rangeOrder .toList (buildTokens w.getenv)) bytes) ",").map
        TrimSpace) ∧
    (∀ r tr, resolve w sourceRoot cfg = (.ok r, tr) →
      r.To = cfg.Source.To ++
        (Split (replaceTokens (w.rangeOrder .toList (buildTokens w.getenv)) bytes) ",").map
          TrimSpace) ∧
    (∀ req, Event.sendMail req ∈ (Execute w sourceRoot version input).trace →
      req.rcpts = cfg.Source.To ++
        (Split (replaceTokens (w.rangeOrder .toList (buildTokens w.getenv)) bytes) ",").map
          TrimSpace ∧
      ∃ rest, req.msg = "To: " ++ Join (cfg.Source.To ++
        (Split (replaceTokens (w.rangeOrder .toList (buildTokens w.getenv)) bytes) ",").map
          TrimSpace) ", " ++ "\n" ++ rest) := by
  have hto := resolveTo_of_content w sourceRoot cfg bytes hpath hread hc
  have hres : ∀ r tr, resolve w sourceRoot cfg = (.ok r, tr) →
      r.To = cfg.Source.To ++
        (Split (replaceTokens (w.rangeOrder .toList (buildTokens w.getenv)) bytes) ",").map
          TrimSpace := by
    intro r tr h
    obtain ⟨t1, t2, t3, t4, _, _, _, h4, _⟩ := resolve_ok_blocks w sourceRoot cfg r tr h
    rw [hto] at h4
    simp only [Prod.mk.injEq, Except.ok.injEq] at h4
    exact h4.1.symm
  refine ⟨by rw [hto], hres, ?_⟩
  intro req hreq
  obtain ⟨cfg2, r, tr, hdec2, _, hres2, hreq2⟩ :=
    Execute_send_inv w sourceRoot version input req hreq
  rw [hdec] at hdec2
  simp only [Except.ok.injEq] at hdec2
  subst hdec2
  have hr := hres r tr hres2
  have hrc : req.rcpts = r.To := by
    rw [hreq2]; unfold sendRequest; split <;> rfl
  have hmsg : req.msg = assembleMessage r.To cfg.Source.From r.headers r.subject r.body := by
    rw [hreq2]; unfold sendRequest; split <;> rfl
  rw [hrc, hmsg, hr]
  refine ⟨rfl, ?_⟩
  unfold assembleMessage
  by_cases hH : r.headers = ""
  · exact ⟨_, by simp only [hH, ne_eq, not_true_eq_false, ↓reduceIte, String.append_assoc,
      String.empty_append]; rfl⟩
  · exact ⟨_, by simp only [hH, ne_eq, not_false_eq_true, ↓reduceIte, String.append_assoc,
      String.empty_append]; rfl⟩

/-- Witness of C6: one static recipient and a recipients file `c@x.com, d@x.com ,`. -/
theorem recipients_static_then_file_witness :
    (resolveTo (sampleWorld fullConfig sampleFiles sampleEnv none) "/src" fullConfig).1 =
      .ok ["b@x.com", "c@x.com", "d@x.com", ""] ∧
    Execute (sampleWorld fullConfig sampleFiles sampleEnv none) "/src" "v1" [123] =
      ⟨"smtp_host=smtp.test;subject=Hi 42;version=v1", none,
        [.readFile "/src/subject.txt", .readFile "/src/headers.txt", .readFile "/src/body.txt",
          .readFile "/src/to.txt",
          .sendMail ⟨"smtp.test:587", some ⟨"", "user", "secret", "smtp.test"⟩, "a@x.com",
            ["b@x.com", "c@x.com", "d@x.com", ""],
            "To: b@x.com, c@x.com, d@x.com, \nFrom: a@x.com\nX-Build: 7\nSubject: Hi 42\n\n" ++
              "Build 42 done\n"⟩]⟩ :=
  ⟨(recipients_static_then_file (sampleWorld fullConfig sampleFiles sampleEnv none) "/src" "v1"
      [123] fullConfig "c@x.com, d@x.com ," rfl (by decide) (by decide) (by decide)).1,
    by decide⟩

/-- A piece list of `splitScan` is never empty. -/
theorem splitScan_ne_nil (sep : List Char) (skip : Nat) (cur s : List Char) :
    splitScan sep skip cur s ≠ [] := by
  induction s generalizing skip cur with
  | nil => cases skip <;> simp [splitScan]
  | cons c s ih =>
    cases skip with
    | zero =>
      rw [splitScan]
      split
      · simp
      · exact ih 0 (c :: cur)
    | succ k =>
      rw [splitScan]
      exact ih k cur

/-- Splitting at commas yields at least one piece. -/
theorem Split_comma_ne_nil (s : String) : Split s "," ≠ [] := by
  unfold Split
  have h : ",".data ≠ [] := by decide
  rw [if_neg h]
  intro hnil
  exact splitScan_ne_nil _ _ _ _ (List.map_eq_nil_iff.1 hnil)

/-- What the recipients block returns, by cases. -/
theorem resolveTo_value (w : World) (sourceRoot : String) (cfg : Input) (sourceTo : List String)
    (tr : List Event) (h : resolveTo w sourceRoot cfg = (.ok sourceTo, tr)) :
    (sourceTo = cfg.Source.To ∧
      (cfg.Params.To = "" ∨ (readSource w sourceRoot .toList cfg.Params.To).1 = "")) ∨
    (cfg.Params.To ≠ "" ∧ (readSource w sourceRoot .toList cfg.Params.To).1 ≠ "" ∧
      sourceTo = cfg.Source.To ++
        (Split (readSource w sourceRoot .toList cfg.Params.To).1 ",").map TrimSpace) := by
  unfold resolveTo at h
  by_cases hp : cfg.Params.To = ""
  · simp only [hp, ne_eq, not_true_eq_false, ↓reduceIte, Prod.mk.injEq, Except.ok.injEq] at h
    exact Or.inl ⟨h.1.symm, Or.inl hp⟩
  · rw [if_pos hp] at h
    rcases hr : readSource w sourceRoot .toList cfg.Params.To with ⟨content, _ | e⟩
    · rw [hr] at h
      simp only at h
      by_cases hlen : content.length > 0
      · rw [if_pos hlen, foldl_append_trimmed] at h
        simp only [Prod.mk.injEq, Except.ok.injEq] at h
        refine Or.inr ⟨hp, ?_, h.1.symm⟩
        intro hc
        simp only at hc
        rw [hc] at hlen
        exact absurd hlen (by decide)
      · rw [if_neg hlen] at h
        simp only [Prod.mk.injEq, Except.ok.injEq] at h
        refine Or.inl ⟨h.1.symm, Or.inr ?_⟩
        exact (length_eq_zero_iff_empty content).1 (Nat.eq_zero_of_not_pos hlen)
    · rw [hr] at h
      simp at h

/-- The recipients of a send of `Execute` are the resolved list. -/
theorem Execute_send_rcpts (w : World) (sourceRoot version : String) (input : List UInt8)
    (cfg : Input) (req : SendRequest) (hdec : w.unmarshal input = .ok cfg)
    (h : Event.sendMail req ∈ (Execute w sourceRoot version input).trace) :
    ∃ r tr, resolve w sourceRoot cfg = (.ok r, tr) ∧ req.rcpts = r.To := by
  obtain ⟨cfg2, r, tr, hdec2, _, hres2, hreq2⟩ :=
    Execute_send_inv w sourceRoot version input req h
  rw [hdec] at hdec2
  simp only [Except.ok.injEq] at hdec2
  subst hdec2
  refine ⟨r, tr, hres2, ?_⟩
  rw [hreq2]; unfold sendRequest; split <;> rfl

/-- C7, as the code has it: for a configuration whose files are all readable, when
`source.to` is non-empty or the token-substituted content of the `params.to` file
is non-empty, the resolved recipient list is non-empty, and so is the recipient
list of every send. -/
theorem recipients_nonempty (w : World) (sourceRoot version : String) (input : List UInt8)
    (cfg : Input) (r : Resolved) (tr : List Event) (hdec : w.unmarshal input = .ok cfg)
    (hres : resolve w sourceRoot cfg = (.ok r, tr))
    (hsome : cfg.Source.To ≠ [] ∨
      (cfg.Params.To ≠ "" ∧ (readSource w sourceRoot .toList cfg.Params.To).1 ≠ "")) :
    r.To ≠ [] ∧
    ∀ req, Event.sendMail req ∈ (Execute w sourceRoot version input).trace → req.rcpts ≠ [] := by
  have hne : r.To ≠ [] := by
    obtain ⟨t1, t2, t3, t4, _, _, _, h4, _⟩ := resolve_ok_blocks w sourceRoot cfg r tr hres
    rcases resolveTo_value w sourceRoot cfg r.To t4 h4 with ⟨hv, hcase⟩ | ⟨_, _, hv⟩
    · rw [hv]
      rcases hsome with hs | ⟨hp, hc⟩
      · exact hs
      · rcases hcase with h | h
        · exact absurd h hp
        · exact absurd h hc
    · rw [hv]
      intro hnil
      have := (List.append_eq_nil.1 hnil).2
      exact Split_comma_ne_nil _ (List.map_eq_nil_iff.1 this)
  refine ⟨hne, ?_⟩
  intro req hreq
  obtain ⟨r2, tr2, hres2, hrc⟩ := Execute_send_rcpts w sourceRoot version input cfg req hdec hreq
  rw [hres] at hres2
  simp only [Prod.mk.injEq, Except.ok.injEq] at hres2
  rw [hrc, ← hres2.1]
  exact hne

/-- Witness of C7 as amended: a static recipient and a non-empty recipients file. -/
theorem recipients_nonempty_witness :
    (["b@x.com", "c@x.com", "d@x.com", ""] : List String) ≠ [] ∧
    ∀ req, Event.sendMail req ∈
      (Execute (sampleWorld fullConfig sampleFiles sampleEnv none) "/src" "v1" [123]).trace →
      req.rcpts ≠ [] :=
  recipients_nonempty (sampleWorld fullConfig sampleFiles sampleEnv none) "/src" "v1" [123]
    fullConfig ⟨"Hi 42", "X-Build: 7", "Build 42 done\n", ["b@x.com", "c@x.com", "d@x.com", ""]⟩
    [.readFile "/src/subject.txt", .readFile "/src/headers.txt", .readFile "/src/body.txt",
      .readFile "/src/to.txt"] rfl (by decide) (Or.inl (by decide))

/-- Counterexample to C7: the configuration passes validation (it names a
recipients file), every file is readable, the recipients file is empty, and
`Execute` sends the message to an empty recipient list. -/
theorem recipients_empty_counterexample :
    validate emptyListConfig = none ∧
    Execute (sampleWorld emptyListConfig sampleFiles sampleEnv none) "/src" "v1" [123] =
      ⟨"smtp_host=smtp.test;subject=Hi 42;version=v1", none,
        [.readFile "/src/subject.txt", .readFile "/src/body.txt", .readFile "/src/empty.txt",
          .sendMail ⟨"smtp.test:587", none, "a@x.com", [],
            "To: \nFrom: a@x.com\nSubject: Hi 42\n\nBuild 42 done\n"⟩]⟩ := by
  decide

/-- What is left after dropping a leading run starts outside the run. -/
theorem head?_dropWhile_all_not (p : Char → Bool) (l : List Char) :
    (l.dropWhile p).head?.all (fun c => !p c) = true := by
  have h := List.head?_dropWhile_not p l
  cases hd : (l.dropWhile p).head? with
  | none => rfl
  | some x =>
    rw [hd] at h
    simp only at h
    simp [Option.all, h]

/-- Dropping a leading run does not change the last element of what is left. -/
theorem getLast?_dropWhile_all (p q : Char → Bool) (l : List Char)
    (h : l.getLast?.all q = true) : (l.dropWhile p).getLast?.all q = true := by
  obtain ⟨t, ht⟩ := List.dropWhile_suffix (l := l) p
  by_cases hnil : l.dropWhile p = []
  · rw [hnil]; rfl
  · have := List.getLast?_append_of_ne_nil t hnil
    rw [ht] at this
    rw [← this]
    exact h

/-- The result of `strings.TrimSpace` has no leading and no trailing white space. -/
theorem TrimSpace_isTrimmed (s : String) : isTrimmed (TrimSpace s) = true := by
  unfold isTrimmed TrimSpace
  simp only [List.head?_reverse, List.getLast?_reverse, Bool.and_eq_true]
  constructor
  · apply getLast?_dropWhile_all
    rw [List.getLast?_reverse]
    exact head?_dropWhile_all_not isSpace s.data
  · exact head?_dropWhile_all_not isSpace _

/-- C8, as the code has it: the resolved recipient list is the static `source.to`
list, unchanged, followed by the addresses derived from the `params.to` file, and
every derived address has no leading and no trailing white-space character; the
same holds of the recipient list of every send. -/
theorem file_recipients_trimmed (w : World) (sourceRoot version : String) (input : List UInt8)
    (cfg : Input) (r : Resolved) (tr : List Event) (hdec : w.unmarshal input = .ok cfg)
    (hres : resolve w sourceRoot cfg = (.ok r, tr)) :
    ∃ derived, r.To = cfg.Source.To ++ derived ∧ (∀ a ∈ derived, isTrimmed a = true) ∧
      ∀ req, Event.sendMail req ∈ (Execute w sourceRoot version input).trace →
        req.rcpts = cfg.Source.To ++ derived := by
  have hd : ∃ derived, r.To = cfg.Source.To ++ derived ∧ ∀ a ∈ derived, isTrimmed a = true := by
    obtain ⟨t1, t2, t3, t4, _, _, _, h4, _⟩ := resolve_ok_blocks w sourceRoot cfg r tr hres
    rcases resolveTo_value w sourceRoot cfg r.To t4 h4 with ⟨hv, _⟩ | ⟨_, _, hv⟩
    · exact ⟨[], by rw [hv, List.append_nil], by simp⟩
    · refine ⟨_, hv, ?_⟩
      intro a ha
      obtain ⟨piece, _, rfl⟩ := List.mem_map.1 ha
      exact TrimSpace_isTrimmed piece
  obtain ⟨derived, h1, h2⟩ := hd
  refine ⟨derived, h1, h2, ?_⟩
  intro req hreq
  obtain ⟨r2, tr2, hres2, hrc⟩ := Execute_send_rcpts w sourceRoot version input cfg req hdec hreq
  rw [hres] at hres2
  simp only [Prod.mk.injEq, Except.ok.injEq] at hres2
  rw [hrc, ← hres2.1]
  exact h1

/-- Witness of C8 as amended: the file `c@x.com, d@x.com ,` after one static recipient. -/
theorem file_recipients_trimmed_witness :
    ∃ derived, ["b@x.com", "c@x.com", "d@x.com", ""] = fullConfig.Source.To ++ derived ∧
      (∀ a ∈ derived, isTrimmed a = true) ∧
      ∀ req, Event.sendMail req ∈
        (Execute (sampleWorld fullConfig sampleFiles sampleEnv none) "/src" "v1" [123]).trace →
        req.rcpts = fullConfig.Source.To ++ derived :=
  file_recipients_trimmed (sampleWorld fullConfig sampleFiles sampleEnv none) "/src" "v1" [123]
    fullConfig ⟨"Hi 42", "X-Build: 7", "Build 42 done\n", ["b@x.com", "c@x.com", "d@x.com", ""]⟩
    [.readFile "/src/subject.txt", .readFile "/src/headers.txt", .readFile "/src/body.txt",
      .readFile "/src/to.txt"] rfl (by decide)

/-- Counterexample to C8: a static recipient written with surrounding blanks
passes validation and is sent to, and rendered in the `To: ` header, untrimmed. -/
theorem static_recipient_untrimmed_counterexample :
    validate paddedConfig = none ∧
    Execute (sampleWorld paddedConfig sampleFiles sampleEnv none) "/src" "v1" [123] =
      ⟨"smtp_host=smtp.test;subject=Hi 42;version=v1", none,
        [.readFile "/src/subject.txt", .readFile "/src/body.txt",
          .sendMail ⟨"smtp.test:587", none, "a@x.com", [" b@x.com "],
            "To:  b@x.com \nFrom: a@x.com\nSubject: Hi 42\n\nBuild 42 done\n"⟩]⟩ ∧
    isTrimmed " b@x.com " = false ∧ TrimSpace " b@x.com " ≠ " b@x.com " := by
  decide
/-! ### Token substitution -/

theorem replaceScan_skip (old new : List Char) (p r : List Char) :
    replaceScan old new p.length (p ++ r) = replaceScan old new 0 r := by
  induction p with
  | nil => rfl
  | cons a p ih => simpa [replaceScan] using ih

/-- At an occurrence of `old` the scan writes `new` and goes on after it. -/
theorem replaceScan_match (old new : List Char) (a : Char) (rest r : List Char)
    (h : old = a :: rest) :
    replaceScan old new 0 (old ++ r) = new ++ replaceScan old new 0 r := by
  subst h
  have hp : (a :: rest).isPrefixOf (a :: (rest ++ r)) = true := by
    rw [List.isPrefixOf_iff_prefix]
    exact List.prefix_append (a :: rest) r
  show replaceScan (a :: rest) new 0 (a :: (rest ++ r)) = _
  rw [replaceScan, if_pos hp]
  have : (a :: rest).length - 1 = rest.length := by simp
  rw [this, replaceScan_skip]

/-- Where `old` does not begin, the scan copies one character. -/
theorem replaceScan_nomatch (old new : List Char) (c : Char) (s : List Char)
    (h : ¬ old <+: c :: s) :
    replaceScan old new 0 (c :: s) = c :: replaceScan old new 0 s := by
  have hp : ¬ (old.isPrefixOf (c :: s) = true) := by
    rw [List.isPrefixOf_iff_prefix]; exact h
  rw [replaceScan, if_neg hp]

/-- A stretch without `$` is copied when `old` begins with `$`. -/
theorem replaceScan_clean (old new : List Char) (orest p r : List Char)
    (h : old = '$' :: orest) (hp : '$' ∉ p) :
    replaceScan old new 0 (p ++ r) = p ++ replaceScan old new 0 r := by
  induction p with
  | nil => rfl
  | cons a p ih =>
    have ha : a ≠ '$' := fun e => hp (by rw [e]; exact List.mem_cons_self _ _)
    have hp2 : '$' ∉ p := fun e => hp (List.mem_cons_of_mem _ e)
    show replaceScan old new 0 (a :: (p ++ r)) = a :: (p ++ replaceScan old new 0 r)
    rw [replaceScan_nomatch, ih hp2]
    rw [h, List.cons_prefix_cons]
    exact fun e => ha e.1.symm

/-- The characters of a placeholder just substituted are dropped. -/
theorem substituteScan_skip (table : List (List Char × List Char)) (p r : List Char) :
    substituteScan table p.length (p ++ r) = substituteScan table 0 r := by
  induction p with
  | nil => rfl
  | cons a p ih => simpa [substituteScan] using ih

/-- No key begins at a character other than `$`. -/
theorem find?_prefix_none_of_ne (table : List (List Char × List Char))
    (hk : ∀ kv ∈ table, ∃ rest, kv.1 = '$' :: rest ∧ '$' ∉ rest) (a : Char) (s : List Char)
    (ha : a ≠ '$') : table.find? (fun kv => kv.1.isPrefixOf (a :: s)) = none := by
  rw [List.find?_eq_none]
  intro kv hkv
  obtain ⟨rest, hrest, _⟩ := hk kv hkv
  rw [List.isPrefixOf_iff_prefix, hrest, List.cons_prefix_cons]
  exact fun e => ha e.1.symm

/-- The simultaneous substitution copies a stretch without `$`. -/
theorem substituteScan_clean (table : List (List Char × List Char))
    (hk : ∀ kv ∈ table, ∃ rest, kv.1 = '$' :: rest ∧ '$' ∉ rest) (p r : List Char)
    (hp : '$' ∉ p) :
    substituteScan table 0 (p ++ r) = p ++ substituteScan table 0 r := by
  induction p with
  | nil => rfl
  | cons a p ih =>
    have ha : a ≠ '$' := fun e => hp (by rw [e]; exact List.mem_cons_self _ _)
    have hp2 : '$' ∉ p := fun e => hp (List.mem_cons_of_mem _ e)
    show substituteScan table 0 (a :: (p ++ r)) = a :: (p ++ substituteScan table 0 r)
    rw [substituteScan, find?_prefix_none_of_ne table hk a _ ha, ih hp2]
/-- An entry whose key begins a text that starts with the key of another entry has that key. -/
theorem key_eq_of_begins (table : List (List Char × List Char)) (hT : TableFacts table)
    (e e' : List Char × List Char) (he : e ∈ table) (he' : e' ∈ table) (Y : List Char)
    (h : e.1 <+: e'.1 ++ Y) : e.1 = e'.1 := by
  rcases List.prefix_or_prefix_of_prefix h (List.prefix_append e'.1 Y) with h1 | h1
  · exact congrArg Prod.fst (hT.2.1 e he e' he' h1)
  · exact (congrArg Prod.fst (hT.2.1 e' he' e he h1)).symm

/-- At an occurrence of a key, the entry found is the one with that key. -/
theorem find?_key (table : List (List Char × List Char)) (hT : TableFacts table)
    (R : List (List Char × List Char)) (hR : ∀ kv ∈ R, kv ∈ table)
    (e' : List Char × List Char) (he' : e' ∈ table) (Y : List Char) :
    R.find? (fun kv => kv.1.isPrefixOf (e'.1 ++ Y)) = R.find? (fun kv => kv.1 == e'.1) := by
  induction R with
  | nil => rfl
  | cons a R ih =>
    have hpq : a.1.isPrefixOf (e'.1 ++ Y) = (a.1 == e'.1) := by
      rw [Bool.eq_iff_iff, List.isPrefixOf_iff_prefix, beq_iff_eq]
      constructor
      · exact key_eq_of_begins table hT a e' (hR a (List.mem_cons_self _ _)) he' Y
      · intro h; rw [h]; exact List.prefix_append _ _
    simp only [List.find?_cons, hpq]
    rw [ih (fun kv hkv => hR kv (List.mem_cons_of_mem _ hkv))]

/-- The simultaneous substitution at an occurrence of a key. -/
theorem substituteScan_key (table : List (List Char × List Char)) (hT : TableFacts table)
    (R : List (List Char × List Char)) (hR : ∀ kv ∈ R, kv ∈ table)
    (e' : List Char × List Char) (he' : e' ∈ table) (Y : List Char) :
    substituteScan R 0 (e'.1 ++ Y) =
      match R.find? (fun kv => kv.1 == e'.1) with
      | some kv => kv.2 ++ substituteScan R 0 Y
      | none => e'.1 ++ substituteScan R 0 Y := by
  obtain ⟨krest, hk, hclean⟩ := hT.1 e' he'
  have hRk : ∀ kv ∈ R, ∃ rest, kv.1 = '$' :: rest ∧ '$' ∉ rest :=
    fun kv hkv => hT.1 kv (hR kv hkv)
  have hfind := find?_key table hT R hR e' he' Y
  rw [hk] at hfind ⊢
  show substituteScan R 0 ('$' :: (krest ++ Y)) = _
  rw [substituteScan]
  rw [show ('$' :: (krest ++ Y)) = ('$' :: krest) ++ Y from rfl, hfind]
  cases hf : R.find? (fun kv => kv.1 == '$' :: krest) with
  | none =>
    simp only
    rw [substituteScan_clean R hRk krest Y hclean]
    rfl
  | some kv =>
    simp only
    have hkv : kv.1 = '$' :: krest := by
      have := List.find?_some hf
      simpa using this
    have hl : kv.1.length - 1 = krest.length := by rw [hkv]; simp
    rw [hl, substituteScan_skip]

/-- The condition on the `$` of a text, at its first character and for the rest. -/
theorem dollarsBeginKeys_cons (keys : List (List Char)) (c : Char) (s : List Char)
    (h : dollarsBeginKeys keys (c :: s) = true) :
    (c = '$' → ∃ k ∈ keys, k <+: c :: s) ∧ dollarsBeginKeys keys s = true := by
  rw [dollarsBeginKeys, Bool.and_eq_true, Bool.or_eq_true] at h
  refine ⟨?_, h.2⟩
  intro hc
  rcases h.1 with h1 | h1
  · simp [hc] at h1
  · rw [List.any_eq_true] at h1
    obtain ⟨k, hk, hp⟩ := h1
    exact ⟨k, hk, List.isPrefixOf_iff_prefix.1 hp⟩

/-- The condition on the `$` of a text holds of every end of the text. -/
theorem dollarsBeginKeys_suffix (keys : List (List Char)) (p r : List Char)
    (h : dollarsBeginKeys keys (p ++ r) = true) : dollarsBeginKeys keys r = true := by
  induction p with
  | nil => exact h
  | cons a p ih => exact ih (dollarsBeginKeys_cons keys a (p ++ r) h).2

/-- The condition on the `$` of a text is kept when a stretch without `$` is put in front. -/
theorem dollarsBeginKeys_clean (keys : List (List Char)) (p r : List Char) (hp : '$' ∉ p)
    (h : dollarsBeginKeys keys r = true) : dollarsBeginKeys keys (p ++ r) = true := by
  induction p with
  | nil => exact h
  | cons a p ih =>
    have ha : a ≠ '$' := fun e => hp (by rw [e]; exact List.mem_cons_self _ _)
    have hp2 : '$' ∉ p := fun e => hp (List.mem_cons_of_mem _ e)
    show dollarsBeginKeys keys (a :: (p ++ r)) = true
    rw [dollarsBeginKeys, ih hp2]
    simp [ha]

/-- The condition on the `$` of a text is kept when a key is put in front. -/
theorem dollarsBeginKeys_key (keys : List (List Char)) (k krest r : List Char) (hk : k ∈ keys)
    (hshape : k = '$' :: krest) (hclean : '$' ∉ krest)
    (h : dollarsBeginKeys keys r = true) : dollarsBeginKeys keys (k ++ r) = true := by
  have h2 := dollarsBeginKeys_clean keys krest r hclean h
  subst hshape
  show dollarsBeginKeys keys ('$' :: (krest ++ r)) = true
  rw [dollarsBeginKeys, h2, Bool.and_true, Bool.or_eq_true]
  right
  rw [List.any_eq_true]
  exact ⟨'$' :: krest, hk, List.isPrefixOf_iff_prefix.2 (List.prefix_append ('$' :: krest) r)⟩

/-- A text whose every `$` begins a key is empty, or starts with a character other than `$`, or starts with a key. -/
theorem good_cases (table : List (List Char × List Char)) (hT : TableFacts table)
    (s : List Char) (h : dollarsBeginKeys (table.map Prod.fst) s = true) :
    s = [] ∨
    (∃ c s', s = c :: s' ∧ c ≠ '$' ∧ dollarsBeginKeys (table.map Prod.fst) s' = true) ∨
    (∃ e ∈ table, ∃ r, s = e.1 ++ r ∧ dollarsBeginKeys (table.map Prod.fst) r = true ∧
      r.length < s.length) := by
  cases s with
  | nil => exact Or.inl rfl
  | cons c s' =>
    right
    obtain ⟨h1, h2⟩ := dollarsBeginKeys_cons _ c s' h
    by_cases hc : c = '$'
    · right
      obtain ⟨k, hk, hp⟩ := h1 hc
      obtain ⟨e, he, rfl⟩ := List.mem_map.1 hk
      obtain ⟨r, hr⟩ := hp
      obtain ⟨krest, hshape, _⟩ := hT.1 e he
      refine ⟨e, he, r, hr.symm, ?_, ?_⟩
      · rw [← hr] at h
        exact dollarsBeginKeys_suffix _ _ _ h
      · rw [← hr, hshape]
        simp only [List.length_append, List.length_cons]
        omega
    · exact Or.inl ⟨c, s', rfl, hc, h2⟩

/-- One replacement at an occurrence of a key: the key replaced is rewritten, any other is copied. -/
theorem replaceScan_key (table : List (List Char × List Char)) (hT : TableFacts table)
    (t v : List Char) (ht : (t, v) ∈ table) (e : List Char × List Char) (he : e ∈ table)
    (r : List Char) :
    replaceScan t v 0 (e.1 ++ r) =
      if e.1 = t then v ++ replaceScan t v 0 r else e.1 ++ replaceScan t v 0 r := by
  obtain ⟨trest, htshape, _⟩ := hT.1 (t, v) ht
  obtain ⟨krest, hkshape, hkclean⟩ := hT.1 e he
  simp only at htshape
  by_cases hek : e.1 = t
  · rw [if_pos hek, hek]
    exact replaceScan_match t v '$' trest r htshape
  · rw [if_neg hek]
    have hno : ¬ t <+: e.1 ++ r := by
      intro hp
      exact hek (key_eq_of_begins table hT (t, v) e ht he r hp).symm
    rw [hkshape] at hno ⊢
    show replaceScan t v 0 ('$' :: (krest ++ r)) = '$' :: (krest ++ replaceScan t v 0 r)
    rw [replaceScan_nomatch t v '$' (krest ++ r) hno,
      replaceScan_clean t v trest krest r htshape hkclean]

/-- One replacement copies a character other than `$`. -/
theorem replaceScan_other (table : List (List Char × List Char)) (hT : TableFacts table)
    (t v : List Char) (ht : (t, v) ∈ table) (c : Char) (s : List Char) (hc : c ≠ '$') :
    replaceScan t v 0 (c :: s) = c :: replaceScan t v 0 s := by
  obtain ⟨trest, htshape, _⟩ := hT.1 (t, v) ht
  simp only at htshape
  apply replaceScan_nomatch
  rw [htshape, List.cons_prefix_cons]
  exact fun e => hc e.1.symm

/-- One replacement keeps the condition that every `$` begins a key. -/
theorem replaceScan_good (table : List (List Char × List Char)) (hT : TableFacts table)
    (t v : List Char) (ht : (t, v) ∈ table) (n : Nat) :
    ∀ s : List Char, s.length = n → dollarsBeginKeys (table.map Prod.fst) s = true →
      dollarsBeginKeys (table.map Prod.fst) (replaceScan t v 0 s) = true := by
  induction n using Nat.strong_induction_on with
  | _ n ih =>
    intro s hn hs
    rcases good_cases table hT s hs with rfl | ⟨c, s', rfl, hc, hs'⟩ | ⟨e, he, r, rfl, hr, hlen⟩
    · rfl
    · rw [replaceScan_other table hT t v ht c s' hc]
      have := ih s'.length (by rw [← hn]; simp) s' rfl hs'
      rw [dollarsBeginKeys, this]
      simp [hc]
    · have hX := ih r.length (by rw [← hn]; exact hlen) r rfl hr
      rw [replaceScan_key table hT t v ht e he r]
      by_cases hek : e.1 = t
      · rw [if_pos hek]
        exact dollarsBeginKeys_clean _ v _ (hT.2.2 (t, v) ht) hX
      · rw [if_neg hek]
        obtain ⟨krest, hkshape, hkclean⟩ := hT.1 e he
        exact dollarsBeginKeys_key _ e.1 krest _ (List.mem_map_of_mem _ he) hkshape hkclean hX

/-- Replacing one key and then substituting the keys of `R` simultaneously is substituting all of them simultaneously. -/
theorem substitute_after_replace (table : List (List Char × List Char)) (hT : TableFacts table)
    (t v : List Char) (ht : (t, v) ∈ table) (R : List (List Char × List Char))
    (hR : ∀ kv ∈ R, kv ∈ table) (n : Nat) :
    ∀ s : List Char, s.length = n → dollarsBeginKeys (table.map Prod.fst) s = true →
      substituteScan R 0 (replaceScan t v 0 s) = substituteScan ((t, v) :: R) 0 s := by
  have hR2 : ∀ kv ∈ (t, v) :: R, kv ∈ table := by
    intro kv hkv
    rcases List.mem_cons.1 hkv with h | h
    · rw [h]; exact ht
    · exact hR kv h
  have hRk : ∀ kv ∈ R, ∃ rest, kv.1 = '$' :: rest ∧ '$' ∉ rest :=
    fun kv hkv => hT.1 kv (hR kv hkv)
  have hRk2 : ∀ kv ∈ (t, v) :: R, ∃ rest, kv.1 = '$' :: rest ∧ '$' ∉ rest :=
    fun kv hkv => hT.1 kv (hR2 kv hkv)
  induction n using Nat.strong_induction_on with
  | _ n ih =>
    intro s hn hs
    rcases good_cases table hT s hs with rfl | ⟨c, s', rfl, hc, hs'⟩ | ⟨e, he, r, rfl, hr, hlen⟩
    · rfl
    · rw [replaceScan_other table hT t v ht c s' hc]
      have := ih s'.length (by rw [← hn]; simp) s' rfl hs'
      rw [substituteScan, find?_prefix_none_of_ne R hRk c _ hc, this]
      rw [substituteScan, find?_prefix_none_of_ne ((t, v) :: R) hRk2 c _ hc]
    · have hX := ih r.length (by rw [← hn]; exact hlen) r rfl hr
      rw [replaceScan_key table hT t v ht e he r,
        substituteScan_key table hT ((t, v) :: R) hR2 e he r]
      by_cases hek : e.1 = t
      · rw [if_pos hek]
        have hb : (t == e.1) = true := by simp [hek]
        simp only [List.find?_cons, hb]
        rw [substituteScan_clean R hRk v _ (hT.2.2 (t, v) ht), hX]
      · rw [if_neg hek]
        have hb : (t == e.1) = false := by
          rw [beq_eq_false_iff_ne]
          exact fun h => hek h.symm
        simp only [List.find?_cons, hb]
        rw [substituteScan_key table hT R hR e he]
        cases R.find? (fun kv => kv.1 == e.1) with
        | none => simp only; rw [hX]
        | some kv => simp only; rw [hX]

/-- The substitution with no placeholder changes nothing. -/
theorem substituteScan_nil (s : List Char) : substituteScan [] 0 s = s := by
  induction s with
  | nil => rfl
  | cons c s ih => rw [substituteScan]; simp [ih]

/-- The replacements made one after the other, in any order, are the simultaneous substitution of the visited keys. -/
theorem foldl_replace_eq_substitute (table : List (List Char × List Char))
    (hT : TableFacts table) (visited : List (List Char × List Char))
    (hv : ∀ kv ∈ visited, kv ∈ table) (s : List Char)
    (hs : dollarsBeginKeys (table.map Prod.fst) s = true) :
    visited.foldl (fun l kv => replaceChars l kv.1 kv.2) s = substituteScan visited 0 s := by
  induction visited generalizing s with
  | nil => rw [substituteScan_nil]; rfl
  | cons a rest ih =>
    obtain ⟨t, v⟩ := a
    have ht : (t, v) ∈ table := hv _ (List.mem_cons_self _ _)
    have hrest : ∀ kv ∈ rest, kv ∈ table := fun kv h => hv kv (List.mem_cons_of_mem _ h)
    obtain ⟨trest, htshape, _⟩ := hT.1 (t, v) ht
    simp only at htshape
    have hne : t ≠ [] := by rw [htshape]; simp
    rw [List.foldl_cons]
    have hstep : replaceChars s (t, v).1 (t, v).2 = replaceScan t v 0 s := by
      simp only [replaceChars, if_neg hne]
    rw [hstep, ih hrest _ (replaceScan_good table hT t v ht s.length s rfl hs)]
    exact substitute_after_replace table hT t v ht rest hrest s.length s rfl hs

/-- The element a search finds does not depend on the order of the list when at most one element qualifies. -/
theorem find?_perm_unique {α : Type} (p : α → Bool) (l l' : List α) (hperm : l.Perm l')
    (huniq : ∀ a ∈ l, ∀ b ∈ l, p a = true → p b = true → a = b) :
    l.find? p = l'.find? p := by
  cases h : l.find? p with
  | none =>
    rw [List.find?_eq_none] at h
    symm
    rw [List.find?_eq_none]
    intro x hx
    exact h x (hperm.mem_iff.2 hx)
  | some a =>
    have ha : a ∈ l := List.mem_of_find?_eq_some h
    have hpa : p a = true := List.find?_some h
    cases h' : l'.find? p with
    | none =>
      rw [List.find?_eq_none] at h'
      exact absurd hpa (h' a (hperm.mem_iff.1 ha))
    | some b =>
      have hb : b ∈ l := hperm.mem_iff.2 (List.mem_of_find?_eq_some h')
      have hpb : p b = true := List.find?_some h'
      rw [huniq a ha b hb hpa hpb]

/-- The simultaneous substitution does not depend on the order of the table. -/
theorem substituteScan_perm (table : List (List Char × List Char)) (hT : TableFacts table)
    (R R' : List (List Char × List Char)) (hR : ∀ kv ∈ R, kv ∈ table) (hperm : R.Perm R')
    (s : List Char) : ∀ skip, substituteScan R skip s = substituteScan R' skip s := by
  induction s with
  | nil => intro skip; cases skip <;> rfl
  | cons c s ih =>
    intro skip
    cases skip with
    | succ k => rw [substituteScan, substituteScan]; exact ih k
    | zero =>
      rw [substituteScan, substituteScan]
      have hf : R.find? (fun kv => kv.1.isPrefixOf (c :: s)) =
          R'.find? (fun kv => kv.1.isPrefixOf (c :: s)) := by
        apply find?_perm_unique _ R R' hperm
        intro a ha b hb hpa hpb
        rw [List.isPrefixOf_iff_prefix] at hpa hpb
        rcases List.prefix_or_prefix_of_prefix hpa hpb with h | h
        · exact hT.2.1 a (hR a ha) b (hR b hb) h
        · exact (hT.2.1 b (hR b hb) a (hR a ha) h).symm
      rw [hf]
      cases R'.find? (fun kv => kv.1.isPrefixOf (c :: s)) with
      | none => simp only; rw [ih]
      | some kv => simp only; rw [ih]

/-- The characters of the text `replaceTokens` returns. -/
theorem replaceTokens_data (visited : List (String × String)) (content : String) :
    (replaceTokens visited content).data =
      (visited.map (fun kv => (kv.1.data, kv.2.data))).foldl
        (fun l kv => replaceChars l kv.1 kv.2) content.data := by
  induction visited generalizing content with
  | nil => rfl
  | cons a rest ih =>
    show (replaceTokens rest (Replace content a.1 a.2)).data = _
    rw [ih]
    rfl

/-- The map `buildTokens` has the shape the substitution lemmas ask for when no value contains `$`. -/
theorem buildTokens_facts (getenv : String → String)
    (hvals : ∀ kv ∈ buildTokens getenv, '$' ∉ kv.2.data) :
    TableFacts ((buildTokens getenv).map (fun kv => (kv.1.data, kv.2.data))) := by
  refine ⟨?_, ?_, ?_⟩
  · intro kv hkv
    simp only [buildTokens, List.map_cons, List.map_nil, List.mem_cons, List.mem_singleton,
      List.not_mem_nil, or_false] at hkv
    rcases hkv with rfl | rfl | rfl | rfl | rfl | rfl
    · exact ⟨"{BUILD_ID}".data, rfl, by decide⟩
    · exact ⟨"{BUILD_NAME}".data, rfl, by decide⟩
    · exact ⟨"{BUILD_JOB_NAME}".data, rfl, by decide⟩
    · exact ⟨"{BUILD_PIPELINE_NAME}".data, rfl, by decide⟩
    · exact ⟨"{ATC_EXTERNAL_URL}".data, rfl, by decide⟩
    · exact ⟨"{BUILD_TEAM_NAME}".data, rfl, by decide⟩
  · intro e he e' he' hp
    simp only [buildTokens, List.map_cons, List.map_nil, List.mem_cons, List.mem_singleton,
      List.not_mem_nil, or_false] at he he'
    rcases he with rfl | rfl | rfl | rfl | rfl | rfl <;>
      rcases he' with rfl | rfl | rfl | rfl | rfl | rfl <;>
      first
      | rfl
      | (exfalso; revert hp; simp only; decide)
  · intro kv hkv
    obtain ⟨e, he, rfl⟩ := List.mem_map.1 hkv
    exact hvals e he

/-- Under the two conditions, the text `replaceTokens` returns is the scan of
the single simultaneous substitution, whatever the order of the visit. -/
theorem replaceTokens_data_eq_scan (getenv : String → String) (visited : List (String × String))
    (content : String) (hperm : visited.Perm (buildTokens getenv))
    (hvals : ∀ kv ∈ buildTokens getenv, '$' ∉ kv.2.data)
    (hcontent : dollarsBeginPlaceholders content = true) :
    (replaceTokens visited content).data =
      substituteScan ((buildTokens getenv).map (fun kv => (kv.1.data, kv.2.data))) 0
        content.data := by
  have hT := buildTokens_facts getenv hvals
  have hp2 : (visited.map (fun kv => (kv.1.data, kv.2.data))).Perm
      ((buildTokens getenv).map (fun kv => (kv.1.data, kv.2.data))) := hperm.map _
  have hv : ∀ kv ∈ visited.map (fun kv => (kv.1.data, kv.2.data)),
      kv ∈ (buildTokens getenv).map (fun kv => (kv.1.data, kv.2.data)) :=
    fun kv h => hp2.mem_iff.1 h
  have hgood : dollarsBeginKeys
      (((buildTokens getenv).map (fun kv => (kv.1.data, kv.2.data))).map Prod.fst)
      content.data = true := hcontent
  rw [replaceTokens_data,
    foldl_replace_eq_substitute _ hT _ hv content.data hgood]
  exact substituteScan_perm _ hT _ _ hv hp2 content.data 0

/-- C9, as the code has it: when no value of the six placeholders contains `$`
and every `$` of the content begins one of the six placeholders, `replaceTokens`
returns, for every order in which the map is visited, the content with each
occurrence of a placeholder replaced by its value and all other text untouched. -/
theorem replaceTokens_eq_substituteAll (getenv : String → String)
    (visited : List (String × String)) (content : String)
    (hperm : visited.Perm (buildTokens getenv))
    (hvals : ∀ kv ∈ buildTokens getenv, '$' ∉ kv.2.data)
    (hcontent : dollarsBeginPlaceholders content = true) :
    replaceTokens visited content = substituteAll (buildTokens getenv) content := by
  apply String.ext
  rw [replaceTokens_data_eq_scan getenv visited content hperm hvals hcontent]
  rfl

/-- Witness of C9 as amended: the subject `Hi ${BUILD_ID}` with `BUILD_ID=42`,
the map visited in reverse. -/
theorem replaceTokens_eq_substituteAll_witness :
    replaceTokens (buildTokens (envOf sampleEnv)).reverse "Hi ${BUILD_ID}\n" =
      substituteAll (buildTokens (envOf sampleEnv)) "Hi ${BUILD_ID}\n" ∧
    substituteAll (buildTokens (envOf sampleEnv)) "Hi ${BUILD_ID}\n" = "Hi 42\n" :=
  ⟨replaceTokens_eq_substituteAll (envOf sampleEnv) (buildTokens (envOf sampleEnv)).reverse
    "Hi ${BUILD_ID}\n" (List.reverse_perm _) (by decide) (by decide), by decide⟩

/-- C10, as the code has it: when no value of the six placeholders contains `$`
and every `$` of the content begins one of the six placeholders, any two orders
of visiting the map give the same result. -/
theorem replaceTokens_order_independent (getenv : String → String)
    (visited visited' : List (String × String)) (content : String)
    (hperm : visited.Perm (buildTokens getenv)) (hperm' : visited'.Perm (buildTokens getenv))
    (hvals : ∀ kv ∈ buildTokens getenv, '$' ∉ kv.2.data)
    (hcontent : dollarsBeginPlaceholders content = true) :
    replaceTokens visited content = replaceTokens visited' content := by
  apply String.ext
  rw [replaceTokens_data_eq_scan getenv visited content hperm hvals hcontent,
    replaceTokens_data_eq_scan getenv visited' content hperm' hvals hcontent]

/-- Witness of C10 as amended: the map visited as written and in reverse. -/
theorem replaceTokens_order_independent_witness :
    replaceTokens (buildTokens (envOf sampleEnv)) "Build ${BUILD_ID} of ${BUILD_NAME}" =
      replaceTokens (buildTokens (envOf sampleEnv)).reverse "Build ${BUILD_ID} of ${BUILD_NAME}" :=
  replaceTokens_order_independent (envOf sampleEnv) (buildTokens (envOf sampleEnv))
    (buildTokens (envOf sampleEnv)).reverse "Build ${BUILD_ID} of ${BUILD_NAME}"
    (List.Perm.refl _) (List.reverse_perm _) (by decide) (by decide)

/-- In the cyclic environment every replacement maps the two texts with a
repeated placeholder among themselves. -/
theorem cyclic_closed (l : List (String × String))
    (hl : ∀ e ∈ l, e ∈ buildTokens (envOf cyclicEnv)) (s : String)
    (hs : s = "${BUILD_NAME} ${BUILD_NAME}" ∨ s = "${BUILD_ID} ${BUILD_ID}") :
    replaceTokens l s = "${BUILD_NAME} ${BUILD_NAME}" ∨
      replaceTokens l s = "${BUILD_ID} ${BUILD_ID}" := by
  induction l generalizing s with
  | nil => exact hs
  | cons e rest ih =>
    have step : ∀ e ∈ buildTokens (envOf cyclicEnv),
        (Replace "${BUILD_NAME} ${BUILD_NAME}" e.1 e.2 = "${BUILD_NAME} ${BUILD_NAME}" ∨
          Replace "${BUILD_NAME} ${BUILD_NAME}" e.1 e.2 = "${BUILD_ID} ${BUILD_ID}") ∧
        (Replace "${BUILD_ID} ${BUILD_ID}" e.1 e.2 = "${BUILD_NAME} ${BUILD_NAME}" ∨
          Replace "${BUILD_ID} ${BUILD_ID}" e.1 e.2 = "${BUILD_ID} ${BUILD_ID}") := by
      decide
    have he := step e (hl e (List.mem_cons_self _ _))
    have hrest : ∀ e ∈ rest, e ∈ buildTokens (envOf cyclicEnv) :=
      fun x hx => hl x (List.mem_cons_of_mem _ hx)
    show replaceTokens rest (Replace s e.1 e.2) = _ ∨ replaceTokens rest (Replace s e.1 e.2) = _
    rcases hs with rfl | rfl
    · exact ih hrest _ he.1
    · exact ih hrest _ he.2

/-- In the cyclic environment, once the map entry of `${BUILD_ID}` has been
visited the text is one of the two with a repeated placeholder. -/
theorem cyclic_reached (l : List (String × String))
    (hl : ∀ e ∈ l, e ∈ buildTokens (envOf cyclicEnv)) (hid : ∃ e ∈ l, e.1 = "${BUILD_ID}") :
    replaceTokens l "${BUILD_ID} ${BUILD_NAME}" = "${BUILD_NAME} ${BUILD_NAME}" ∨
      replaceTokens l "${BUILD_ID} ${BUILD_NAME}" = "${BUILD_ID} ${BUILD_ID}" := by
  induction l with
  | nil =>
    obtain ⟨e, he, _⟩ := hid
    exact absurd he (List.not_mem_nil e)
  | cons e rest ih =>
    have step : ∀ e ∈ buildTokens (envOf cyclicEnv),
        (Replace "${BUILD_ID} ${BUILD_NAME}" e.1 e.2 = "${BUILD_NAME} ${BUILD_NAME}" ∨
          Replace "${BUILD_ID} ${BUILD_NAME}" e.1 e.2 = "${BUILD_ID} ${BUILD_ID}") ∨
        (Replace "${BUILD_ID} ${BUILD_NAME}" e.1 e.2 = "${BUILD_ID} ${BUILD_NAME}" ∧
          e.1 ≠ "${BUILD_ID}") := by
      decide
    have hrest : ∀ e ∈ rest, e ∈ buildTokens (envOf cyclicEnv) :=
      fun x hx => hl x (List.mem_cons_of_mem _ hx)
    show replaceTokens rest (Replace "${BUILD_ID} ${BUILD_NAME}" e.1 e.2) = _ ∨
      replaceTokens rest (Replace "${BUILD_ID} ${BUILD_NAME}" e.1 e.2) = _
    rcases step e (hl e (List.mem_cons_self _ _)) with h | ⟨h, hne⟩
    · exact cyclic_closed rest hrest _ h
    · rw [h]
      apply ih hrest
      obtain ⟨x, hx, hx1⟩ := hid
      rcases List.mem_cons.1 hx with rfl | hx
      · exact absurd hx1 hne
      · exact ⟨x, hx, hx1⟩

/-- Counterexample to C9.  With `BUILD_ID` set to the text `${BUILD_NAME}` and
`BUILD_NAME` to the text `${BUILD_ID}`, no order of visiting the map makes
`replaceTokens` return the simultaneous substitution of `${BUILD_ID} ${BUILD_NAME}`:
inserted values are rewritten by later replacements.  And with values free of
`$`, `BUILD_ID` unset, the content `$${BUILD_ID}{BUILD_NAME}` visited in the
order written returns `nightly`, text that the removal of a placeholder put
together being rewritten, where the simultaneous substitution is `${BUILD_NAME}`. -/
theorem replaceTokens_not_simultaneous_counterexample :
    (¬ ∃ visited : List (String × String), visited.Perm (buildTokens (envOf cyclicEnv)) ∧
      replaceTokens visited "${BUILD_ID} ${BUILD_NAME}" =
        substituteAll (buildTokens (envOf cyclicEnv)) "${BUILD_ID} ${BUILD_NAME}") ∧
    substituteAll (buildTokens (envOf cyclicEnv)) "${BUILD_ID} ${BUILD_NAME}" =
      "${BUILD_NAME} ${BUILD_ID}" ∧
    replaceTokens (buildTokens (envOf nightlyEnv)) "$${BUILD_ID}{BUILD_NAME}" = "nightly" ∧
    substituteAll (buildTokens (envOf nightlyEnv)) "$${BUILD_ID}{BUILD_NAME}" =
      "${BUILD_NAME}" := by
  refine ⟨?_, by decide, by decide, by decide⟩
  rintro ⟨visited, hperm, heq⟩
  have hl : ∀ e ∈ visited, e ∈ buildTokens (envOf cyclicEnv) := fun e he => hperm.mem_iff.1 he
  have hid : ∃ e ∈ visited, e.1 = "${BUILD_ID}" :=
    ⟨("${BUILD_ID}", envOf cyclicEnv "BUILD_ID"), hperm.mem_iff.2 (by decide), rfl⟩
  have hsim : substituteAll (buildTokens (envOf cyclicEnv)) "${BUILD_ID} ${BUILD_NAME}" =
      "${BUILD_NAME} ${BUILD_ID}" := by decide
  rw [hsim] at heq
  rcases cyclic_reached visited hl hid with h | h
  · rw [h] at heq; exact absurd heq (by decide)
  · rw [h] at heq; exact absurd heq (by decide)

/-- Counterexample to C10.  Two orders of visiting the same map give different
results on the same content and environment: with `BUILD_ID` unset and
`BUILD_NAME=nightly`, the content `$${BUILD_ID}{BUILD_NAME}` becomes `nightly`
in the order written and `${BUILD_NAME}` in the reverse order; with the cyclic
environment the content `${BUILD_ID}` becomes `${BUILD_ID}` in the order written
and `${BUILD_NAME}` in the reverse order. -/
theorem replaceTokens_order_dependent_counterexample :
    (buildTokens (envOf nightlyEnv)).reverse.Perm (buildTokens (envOf nightlyEnv)) ∧
    replaceTokens (buildTokens (envOf nightlyEnv)) "$${BUILD_ID}{BUILD_NAME}" = "nightly" ∧
    replaceTokens (buildTokens (envOf nightlyEnv)).reverse "$${BUILD_ID}{BUILD_NAME}" =
      "${BUILD_NAME}" ∧
    (buildTokens (envOf cyclicEnv)).reverse.Perm (buildTokens (envOf cyclicEnv)) ∧
    replaceTokens (buildTokens (envOf cyclicEnv)) "${BUILD_ID}" = "${BUILD_ID}" ∧
    replaceTokens (buildTokens (envOf cyclicEnv)).reverse "${BUILD_ID}" = "${BUILD_NAME}" :=
  ⟨List.reverse_perm _, by decide, by decide, List.reverse_perm _, by decide, by decide⟩

/-! ### Transmission -/

/-- The fields of the request of lines 147-168. -/
theorem sendRequest_fields (cfg : Input) (sourceTo : List String) (messageData : String) :
    (sendRequest cfg sourceTo messageData).addr =
      cfg.Source.SMTP.Host ++ ":" ++ cfg.Source.SMTP.Port ∧
    (sendRequest cfg sourceTo messageData).sender = cfg.Source.From ∧
    (sendRequest cfg sourceTo messageData).rcpts = sourceTo ∧
    (sendRequest cfg sourceTo messageData).msg = messageData ∧
    (cfg.Source.SMTP.Anonymous = true → (sendRequest cfg sourceTo messageData).auth = none) ∧
    (cfg.Source.SMTP.Anonymous = false → (sendRequest cfg sourceTo messageData).auth =
      some ⟨"", cfg.Source.SMTP.Username, cfg.Source.SMTP.Password, cfg.Source.SMTP.Host⟩) := by
  unfold sendRequest
  cases h : cfg.Source.SMTP.Anonymous <;> simp

/-- When the record serialises and the body is non-empty or `send_empty_body` is
true, `deliver` makes the one call of `smtp.SendMail` and returns by its answer. -/
theorem deliver_of_transmission (w : World) (version : String) (cfg : Input) (r : Resolved)
    (outbytes : String)
    (hm : w.marshal (outputRecord w version cfg r.subject) = .ok outbytes)
    (hgo : cfg.Params.SendEmptyBody = true ∨ r.body.length ≠ 0) :
    deliver w version cfg r =
      ⟨match w.sendMail (sendRequest cfg r.To
            (assembleMessage r.To cfg.Source.From r.headers r.subject r.body)) with
        | some _ => ""
        | none => outbytes,
       (w.sendMail (sendRequest cfg r.To
          (assembleMessage r.To cfg.Source.From r.headers r.subject r.body))).map GoError.sendMail,
       [Event.sendMail (sendRequest cfg r.To
          (assembleMessage r.To cfg.Source.From r.headers r.subject r.body))]⟩ := by
  have hno : ¬ (cfg.Params.SendEmptyBody = false ∧ r.body.length = 0) := by
    rintro ⟨h1, h2⟩
    rcases hgo with h | h
    · rw [h1] at h; exact absurd h (by decide)
    · exact h h2
  unfold deliver
  rw [hm]
  simp only [if_neg hno]
  cases w.sendMail (sendRequest cfg r.To
      (assembleMessage r.To cfg.Source.From r.headers r.subject r.body)) <;> rfl

/-- The send events of a trace of file reads followed by one send. -/
theorem sends_reads_then_send (tr : List Event) (req : SendRequest)
    (h : ∀ ev ∈ tr, ev.isSend = false) : sends (tr ++ [Event.sendMail req]) = [Event.sendMail req] := by
  unfold sends
  rw [List.filter_append]
  have h1 : tr.filter Event.isSend = [] := by
    rw [List.filter_eq_nil_iff]
    intro ev hev
    rw [h ev hev]
    decide
  rw [h1]
  rfl

/-- C11: when `Execute` reaches transmission (valid configuration, files resolved,
record serialised, body non-empty or `send_empty_body` true) its trace is the
file reads followed by exactly one send, whose request has address
`host:port`, sender `source.from`, the resolved recipient list as recipients and
the assembled message as data, no authentication when `anonymous` is true, and
plain authentication with identity empty, the configured user name, password and
host when `anonymous` is false. -/
theorem send_request_fields (w : World) (sourceRoot version : String) (input : List UInt8)
    (cfg : Input) (r : Resolved) (tr : List Event) (outbytes : String)
    (hroot : sourceRoot ≠ "") (hdec : w.unmarshal input = .ok cfg)
    (hvalid : validate cfg = none) (hres : resolve w sourceRoot cfg = (.ok r, tr))
    (hm : w.marshal (outputRecord w version cfg r.subject) = .ok outbytes)
    (hgo : cfg.Params.SendEmptyBody = true ∨ r.body.length ≠ 0) :
    ∃ req, (Execute w sourceRoot version input).trace = tr ++ [Event.sendMail req] ∧
      sends (Execute w sourceRoot version input).trace = [Event.sendMail req] ∧
      req.addr = cfg.Source.SMTP.Host ++ ":" ++ cfg.Source.SMTP.Port ∧
      req.sender = cfg.Source.From ∧
      req.rcpts = r.To ∧
      req.msg = assembleMessage r.To cfg.Source.From r.headers r.subject r.body ∧
      (cfg.Source.SMTP.Anonymous = true → req.auth = none) ∧
      (cfg.Source.SMTP.Anonymous = false → req.auth =
        some ⟨"", cfg.Source.SMTP.Username, cfg.Source.SMTP.Password,
          cfg.Source.SMTP.Host⟩) := by
  have hreads := resolve_reads w sourceRoot cfg
  rw [hres] at hreads
  have hE := Execute_of_resolved w sourceRoot version input cfg r tr hroot hdec hvalid hres
  rw [deliver_of_transmission w version cfg r outbytes hm hgo] at hE
  obtain ⟨f1, f2, f3, f4, f5, f6⟩ := sendRequest_fields cfg r.To
    (assembleMessage r.To cfg.Source.From r.headers r.subject r.body)
  refine ⟨_, ?_, ?_, f1, f2, f3, f4, f5, f6⟩
  · rw [hE]
  · rw [hE]
    exact sends_reads_then_send tr _ hreads

/-- Witness of C11: an authenticated configuration with recipients file and headers. -/
theorem send_request_fields_witness :
    ∃ req, (Execute (sampleWorld fullConfig sampleFiles sampleEnv none) "/src" "v1" [123]).trace =
        [.readFile "/src/subject.txt", .readFile "/src/headers.txt", .readFile "/src/body.txt",
          .readFile "/src/to.txt"] ++ [Event.sendMail req] ∧
      sends (Execute (sampleWorld fullConfig sampleFiles sampleEnv none) "/src" "v1" [123]).trace =
        [Event.sendMail req] ∧
      req.addr = fullConfig.Source.SMTP.Host ++ ":" ++ fullConfig.Source.SMTP.Port ∧
      req.sender = fullConfig.Source.From ∧
      req.rcpts = ["b@x.com", "c@x.com", "d@x.com", ""] ∧
      req.msg = assembleMessage ["b@x.com", "c@x.com", "d@x.com", ""] fullConfig.Source.From
        "X-Build: 7" "Hi 42" "Build 42 done\n" ∧
      (fullConfig.Source.SMTP.Anonymous = true → req.auth = none) ∧
      (fullConfig.Source.SMTP.Anonymous = false → req.auth =
        some ⟨"", fullConfig.Source.SMTP.Username, fullConfig.Source.SMTP.Password,
          fullConfig.Source.SMTP.Host⟩) :=
  send_request_fields (sampleWorld fullConfig sampleFiles sampleEnv none) "/src" "v1" [123]
    fullConfig ⟨"Hi 42", "X-Build: 7", "Build 42 done\n", ["b@x.com", "c@x.com", "d@x.com", ""]⟩
    [.readFile "/src/subject.txt", .readFile "/src/headers.txt", .readFile "/src/body.txt",
      .readFile "/src/to.txt"] "smtp_host=smtp.test;subject=Hi 42;version=v1"
    (by decide) rfl (by decide) (by decide) (by decide) (Or.inr (by decide))

/-- What `Execute` returns when it reaches transmission. -/
theorem Execute_of_transmission (w : World) (sourceRoot version : String) (input : List UInt8)
    (cfg : Input) (r : Resolved) (tr : List Event) (outbytes : String)
    (hroot : sourceRoot ≠ "") (hdec : w.unmarshal input = .ok cfg)
    (hvalid : validate cfg = none) (hres : resolve w sourceRoot cfg = (.ok r, tr))
    (hm : w.marshal (outputRecord w version cfg r.subject) = .ok outbytes)
    (hgo : cfg.Params.SendEmptyBody = true ∨ r.body.length ≠ 0) :
    Execute w sourceRoot version input =
      ⟨match w.sendMail (sendRequest cfg r.To
            (assembleMessage r.To cfg.Source.From r.headers r.subject r.body)) with
        | some _ => ""
        | none => outbytes,
       (w.sendMail (sendRequest cfg r.To
          (assembleMessage r.To cfg.Source.From r.headers r.subject r.body))).map GoError.sendMail,
       tr ++ [Event.sendMail (sendRequest cfg r.To
          (assembleMessage r.To cfg.Source.From r.headers r.subject r.body))]⟩ := by
  rw [Execute_of_resolved w sourceRoot version input cfg r tr hroot hdec hvalid hres,
    deliver_of_transmission w version cfg r outbytes hm hgo]

/-- The layout of the assembled message, with `strings.Join`. -/
theorem assembleMessage_eq (R : List String) (F H S B : String) :
    assembleMessage R F H S B =
      "To: " ++ Join R ", " ++ "\n" ++ "From: " ++ F ++ "\n" ++
        (if H = "" then "" else H ++ "\n") ++ "Subject: " ++ S ++ "\n" ++ "\n" ++ B := by
  unfold assembleMessage
  by_cases hH : H = ""
  · simp only [hH, ne_eq, not_true_eq_false, ↓reduceIte, String.append_assoc,
      String.empty_append, String.append_empty]
  · simp only [hH, ne_eq, not_false_eq_true, ↓reduceIte, String.append_assoc,
      String.empty_append, String.append_empty]

/-- C12: for a valid configuration with readable files and a version string `v`,
when the send is made and succeeds `Execute` returns no error and, as payload,
the serialisation of the record whose metadata is, in order, `smtp_host` with
`source.smtp.host`, `subject` with the resolved subject (the substituted,
newline-trimmed content of the subject file) and `version` with `v`; the subject
in the record is the text that follows `Subject: ` in the message sent. -/
theorem Execute_success_record (w : World) (sourceRoot version : String) (input : List UInt8)
    (cfg : Input) (r : Resolved) (tr : List Event) (subjectBytes payload : String)
    (hroot : sourceRoot ≠ "") (hdec : w.unmarshal input = .ok cfg)
    (hvalid : validate cfg = none) (hres : resolve w sourceRoot cfg = (.ok r, tr))
    (hsubject : w.readFile (sourceFile w sourceRoot cfg.Params.Subject) = (subjectBytes, none))
    (hgo : cfg.Params.SendEmptyBody = true ∨ r.body.length ≠ 0)
    (hm : w.marshal
        { Version := { Time := w.now }
          Metadata := [⟨"smtp_host", cfg.Source.SMTP.Host⟩,
            ⟨"subject",
              Trim (replaceTokens (w.rangeOrder .subject (buildTokens w.getenv)) subjectBytes)
                "\n"⟩,
            ⟨"version", version⟩] } = .ok payload)
    (hsend : w.sendMail (sendRequest cfg r.To
      (assembleMessage r.To cfg.Source.From r.headers r.subject r.body)) = none) :
    (Execute w sourceRoot version input).err = none ∧
    (Execute w sourceRoot version input).payload = payload ∧
    ∃ req, (Execute w sourceRoot version input).trace = tr ++ [Event.sendMail req] ∧
      req.msg = "To: " ++ Join r.To ", " ++ "\n" ++ "From: " ++ cfg.Source.From ++ "\n" ++
        (if r.headers = "" then "" else r.headers ++ "\n") ++ "Subject: " ++
        Trim (replaceTokens (w.rangeOrder .subject (buildTokens w.getenv)) subjectBytes) "\n" ++
        "\n" ++ "\n" ++ r.body := by
  obtain ⟨t1, t2, t3, t4, h1, _, _, _, _⟩ := resolve_ok_blocks w sourceRoot cfg r tr hres
  rw [resolveSubject_ok w sourceRoot cfg subjectBytes hsubject] at h1
  simp only [Prod.mk.injEq, Except.ok.injEq] at h1
  have hs : r.subject =
      Trim (replaceTokens (w.rangeOrder .subject (buildTokens w.getenv)) subjectBytes) "\n" :=
    h1.1.symm
  have hm2 : w.marshal (outputRecord w version cfg r.subject) = .ok payload := by
    rw [hs]; exact hm
  have hE := Execute_of_transmission w sourceRoot version input cfg r tr payload hroot hdec
    hvalid hres hm2 hgo
  rw [hsend] at hE
  rw [hE]
  refine ⟨rfl, rfl, _, rfl, ?_⟩
  rw [(sendRequest_fields cfg r.To _).2.2.2.1, assembleMessage_eq, hs]

/-- Witness of C12: the minimal configuration of the specification, subject file
`Hi ${BUILD_ID}` with `BUILD_ID=42`.  With `send_empty_body` true the message is
sent and reads `Subject: Hi 42`, and the record has subject `Hi 42`; with
`send_empty_body` false nothing is sent and the record returned with the refusal
has the same subject. -/
theorem Execute_success_record_witness :
    Execute (sampleWorld minimalConfig minimalFiles minimalEnv none) "/src" "v1" [123] =
      ⟨"smtp_host=smtp.test;subject=Hi 42;version=v1", none,
        [.readFile "/src/subject.txt",
          .sendMail ⟨"smtp.test:587", none, "a@x.com", ["b@x.com"],
            "To: b@x.com\nFrom: a@x.com\nSubject: Hi 42\n\n"⟩]⟩ ∧
    Execute (sampleWorld bodylessConfig minimalFiles minimalEnv none) "/src" "v1" [123] =
      ⟨"smtp_host=smtp.test;subject=Hi 42;version=v1", some emptyBodyError,
        [.readFile "/src/subject.txt"]⟩ ∧
    ((Execute (sampleWorld minimalConfig minimalFiles minimalEnv none) "/src" "v1" [123]).err =
      none ∧
    (Execute (sampleWorld minimalConfig minimalFiles minimalEnv none) "/src" "v1"
      [123]).payload = "smtp_host=smtp.test;subject=Hi 42;version=v1" ∧
    ∃ req, (Execute (sampleWorld minimalConfig minimalFiles minimalEnv none) "/src" "v1"
        [123]).trace = [.readFile "/src/subject.txt"] ++ [Event.sendMail req] ∧
      req.msg = "To: " ++ Join ["b@x.com"] ", " ++ "\n" ++ "From: " ++
        minimalConfig.Source.From ++ "\n" ++
        (if ("" : String) = "" then "" else "" ++ "\n") ++ "Subject: " ++
        Trim (replaceTokens ((sampleWorld minimalConfig minimalFiles minimalEnv none).rangeOrder
          .subject (buildTokens (sampleWorld minimalConfig minimalFiles minimalEnv none).getenv))
          "Hi ${BUILD_ID}") "\n" ++ "\n" ++ "\n" ++ "") :=
  ⟨by decide, by decide,
    Execute_success_record (sampleWorld minimalConfig minimalFiles minimalEnv none) "/src" "v1"
      [123] minimalConfig ⟨"Hi 42", "", "", ["b@x.com"]⟩ [.readFile "/src/subject.txt"]
      "Hi ${BUILD_ID}" "smtp_host=smtp.test;subject=Hi 42;version=v1"
      (by decide) rfl (by decide) (by decide) (by decide) (Or.inl rfl) (by decide) (by decide)⟩

/-! ### Resolved texts -/

/-- The text `readSource` returns is the substituted content of the file. -/
theorem readSource_fst (w : World) (sourceRoot : String) (site : ReadSite) (sourcePath : String) :
    (readSource w sourceRoot site sourcePath).1 =
      replaceTokens (w.rangeOrder site (buildTokens w.getenv))
        (w.readFile (sourceFile w sourceRoot sourcePath)).1 := rfl

/-- The result of `strings.Trim` with cutset `"\n"` neither starts nor ends with
a newline. -/
theorem Trim_newline (s : String) :
    (Trim s "\n").data.head? ≠ some '\n' ∧ (Trim s "\n").data.getLast? ≠ some '\n' := by
  have key : ∀ o : Option Char,
      o.all (fun c => !(fun c => decide (c ∈ "\n".data)) c) = true → o ≠ some '\n' := by
    intro o ho h
    rw [h] at ho
    revert ho
    decide
  unfold Trim
  simp only [List.head?_reverse, List.getLast?_reverse]
  constructor
  · apply key
    apply getLast?_dropWhile_all
    rw [List.getLast?_reverse]
    exact head?_dropWhile_all_not _ s.data
  · apply key
    exact head?_dropWhile_all_not _ _

/-- What the subject block returns when it succeeds. -/
theorem resolveSubject_value (w : World) (sourceRoot : String) (cfg : Input) (subject : String)
    (t1 : List Event) (h : resolveSubject w sourceRoot cfg = (.ok subject, t1)) :
    subject = Trim (readSource w sourceRoot .subject cfg.Params.Subject).1 "\n" ∧
    t1 = [readEvent w sourceRoot cfg.Params.Subject] := by
  unfold resolveSubject at h
  rcases hr : readSource w sourceRoot .subject cfg.Params.Subject with ⟨content, _ | e⟩
  · rw [hr] at h
    simp only [Prod.mk.injEq, Except.ok.injEq] at h
    exact ⟨h.1.symm, h.2.symm⟩
  · rw [hr] at h
    simp at h

/-- What the headers block returns when it succeeds. -/
theorem resolveHeaders_value (w : World) (sourceRoot : String) (cfg : Input) (headers : String)
    (t2 : List Event) (h : resolveHeaders w sourceRoot cfg = (.ok headers, t2)) :
    (cfg.Params.Headers ≠ "" →
      headers = Trim (readSource w sourceRoot .headers cfg.Params.Headers).1 "\n" ∧
      t2 = [readEvent w sourceRoot cfg.Params.Headers]) ∧
    (cfg.Params.Headers = "" → headers = "" ∧ t2 = []) := by
  unfold resolveHeaders at h
  by_cases hp : cfg.Params.Headers = ""
  · simp only [hp, ne_eq, not_true_eq_false, ↓reduceIte, Prod.mk.injEq, Except.ok.injEq] at h
    exact ⟨fun hne => absurd hp hne, fun _ => ⟨h.1.symm, h.2.symm⟩⟩
  · rw [if_pos hp] at h
    refine ⟨fun _ => ?_, fun he => absurd he hp⟩
    rcases hr : readSource w sourceRoot .headers cfg.Params.Headers with ⟨content, _ | e⟩
    · rw [hr] at h
      simp only [Prod.mk.injEq, Except.ok.injEq] at h
      exact ⟨h.1.symm, h.2.symm⟩
    · rw [hr] at h
      simp at h

/-- What the body block returns when it succeeds. -/
theorem resolveBody_value (w : World) (sourceRoot : String) (cfg : Input) (body : String)
    (t3 : List Event) (h : resolveBody w sourceRoot cfg = (.ok body, t3)) :
    (cfg.Params.Body ≠ "" →
      body = (readSource w sourceRoot .body cfg.Params.Body).1 ∧
      t3 = [readEvent w sourceRoot cfg.Params.Body]) ∧
    (cfg.Params.Body = "" → body = "" ∧ t3 = []) := by
  unfold resolveBody at h
  by_cases hp : cfg.Params.Body = ""
  · simp only [hp, ne_eq, not_true_eq_false, ↓reduceIte, Prod.mk.injEq, Except.ok.injEq] at h
    exact ⟨fun hne => absurd hp hne, fun _ => ⟨h.1.symm, h.2.symm⟩⟩
  · rw [if_pos hp] at h
    refine ⟨fun _ => ?_, fun he => absurd he hp⟩
    rcases hr : readSource w sourceRoot .body cfg.Params.Body with ⟨content, _ | e⟩
    · rw [hr] at h
      simp only [Prod.mk.injEq, Except.ok.injEq] at h
      exact ⟨h.1.symm, h.2.symm⟩
    · rw [hr] at h
      simp at h

/-- The reads of the recipients block when it succeeds. -/
theorem resolveTo_trace (w : World) (sourceRoot : String) (cfg : Input) (sourceTo : List String)
    (t4 : List Event) (h : resolveTo w sourceRoot cfg = (.ok sourceTo, t4)) :
    t4 = if cfg.Params.To ≠ "" then [readEvent w sourceRoot cfg.Params.To] else [] := by
  unfold resolveTo at h
  by_cases hp : cfg.Params.To = ""
  · simp only [hp, ne_eq, not_true_eq_false, ↓reduceIte, Prod.mk.injEq, Except.ok.injEq] at h
    simp only [hp, ne_eq, not_true_eq_false, ↓reduceIte]
    exact h.2.symm
  · rw [if_pos hp] at h
    rw [if_pos hp]
    rcases hr : readSource w sourceRoot .toList cfg.Params.To with ⟨content, _ | e⟩
    · rw [hr] at h
      simp only at h
      split at h
      · simp only [Prod.mk.injEq, Except.ok.injEq] at h
        exact h.2.symm
      · simp only [Prod.mk.injEq, Except.ok.injEq] at h
        exact h.2.symm
    · rw [hr] at h
      simp at h

/-- The reads of a successful `resolve`: the subject file, then each of the
headers, body and recipients files whose path is given. -/
theorem resolve_ok_trace (w : World) (sourceRoot : String) (cfg : Input) (r : Resolved)
    (tr : List Event) (h : resolve w sourceRoot cfg = (.ok r, tr)) :
    tr = [readEvent w sourceRoot cfg.Params.Subject] ++
      (if cfg.Params.Headers ≠ "" then [readEvent w sourceRoot cfg.Params.Headers] else []) ++
      (if cfg.Params.Body ≠ "" then [readEvent w sourceRoot cfg.Params.Body] else []) ++
      (if cfg.Params.To ≠ "" then [readEvent w sourceRoot cfg.Params.To] else []) := by
  obtain ⟨t1, t2, t3, t4, h1, h2, h3, h4, htr⟩ := resolve_ok_blocks w sourceRoot cfg r tr h
  have e1 := (resolveSubject_value w sourceRoot cfg _ _ h1).2
  have e2 : t2 =
      if cfg.Params.Headers ≠ "" then [readEvent w sourceRoot cfg.Params.Headers] else [] := by
    by_cases hp : cfg.Params.Headers = ""
    · rw [if_neg (not_not.2 hp)]
      exact ((resolveHeaders_value w sourceRoot cfg _ _ h2).2 hp).2
    · rw [if_pos hp]
      exact ((resolveHeaders_value w sourceRoot cfg _ _ h2).1 hp).2
  have e3 : t3 =
      if cfg.Params.Body ≠ "" then [readEvent w sourceRoot cfg.Params.Body] else [] := by
    by_cases hp : cfg.Params.Body = ""
    · rw [if_neg (not_not.2 hp)]
      exact ((resolveBody_value w sourceRoot cfg _ _ h3).2 hp).2
    · rw [if_pos hp]
      exact ((resolveBody_value w sourceRoot cfg _ _ h3).1 hp).2
  have e4 := resolveTo_trace w sourceRoot cfg _ _ h4
  rw [htr, e1, e2, e3, e4]

/-- C13: for a configuration whose files are all readable, the resolved subject is
the token-substituted content of the subject file with leading and trailing
newlines removed, and neither starts nor ends with a newline; the resolved
headers are trimmed the same way and their file is read only when a headers path
is given, the headers being empty otherwise; the resolved body is the
token-substituted content of the body file, untrimmed; these are the texts of
the message of every send. -/
theorem resolved_texts (w : World) (sourceRoot version : String) (input : List UInt8)
    (cfg : Input) (r : Resolved) (tr : List Event) (hdec : w.unmarshal input = .ok cfg)
    (hres : resolve w sourceRoot cfg = (.ok r, tr)) :
    r.subject = Trim (replaceTokens (w.rangeOrder .subject (buildTokens w.getenv))
      (w.readFile (sourceFile w sourceRoot cfg.Params.Subject)).1) "\n" ∧
    r.subject.data.head? ≠ some '\n' ∧ r.subject.data.getLast? ≠ some '\n' ∧
    (cfg.Params.Headers ≠ "" →
      r.headers = Trim (replaceTokens (w.rangeOrder .headers (buildTokens w.getenv))
        (w.readFile (sourceFile w sourceRoot cfg.Params.Headers)).1) "\n" ∧
      r.headers.data.head? ≠ some '\n' ∧ r.headers.data.getLast? ≠ some '\n') ∧
    (cfg.Params.Headers = "" → r.headers = "") ∧
    (cfg.Params.Body ≠ "" →
      r.body = replaceTokens (w.rangeOrder .body (buildTokens w.getenv))
        (w.readFile (sourceFile w sourceRoot cfg.Params.Body)).1) ∧
    (cfg.Params.Body = "" → r.body = "") ∧
    tr = [readEvent w sourceRoot cfg.Params.Subject] ++
      (if cfg.Params.Headers ≠ "" then [readEvent w sourceRoot cfg.Params.Headers] else []) ++
      (if cfg.Params.Body ≠ "" then [readEvent w sourceRoot cfg.Params.Body] else []) ++
      (if cfg.Params.To ≠ "" then [readEvent w sourceRoot cfg.Params.To] else []) ∧
    ∀ req, Event.sendMail req ∈ (Execute w sourceRoot version input).trace →
      req.msg = assembleMessage r.To cfg.Source.From r.headers r.subject r.body := by
  obtain ⟨t1, t2, t3, t4, h1, h2, h3, h4, _⟩ := resolve_ok_blocks w sourceRoot cfg r tr hres
  have hs := (resolveSubject_value w sourceRoot cfg _ _ h1).1
  have hh := resolveHeaders_value w sourceRoot cfg _ _ h2
  have hb := resolveBody_value w sourceRoot cfg _ _ h3
  rw [readSource_fst] at hs
  refine ⟨hs, ?_, ?_, ?_, fun hp => (hh.2 hp).1, ?_, fun hp => (hb.2 hp).1,
    resolve_ok_trace w sourceRoot cfg r tr hres, ?_⟩
  · rw [hs]; exact (Trim_newline _).1
  · rw [hs]; exact (Trim_newline _).2
  · intro hp
    have := (hh.1 hp).1
    rw [readSource_fst] at this
    refine ⟨this, ?_, ?_⟩
    · rw [this]; exact (Trim_newline _).1
    · rw [this]; exact (Trim_newline _).2
  · intro hp
    have := (hb.1 hp).1
    rw [readSource_fst] at this
    exact this
  · intro req hreq
    obtain ⟨cfg2, r2, tr2, hdec2, _, hres2, hreq2⟩ :=
      Execute_send_inv w sourceRoot version input req hreq
    rw [hdec] at hdec2
    simp only [Except.ok.injEq] at hdec2
    subst hdec2
    rw [hres] at hres2
    simp only [Prod.mk.injEq, Except.ok.injEq] at hres2
    rw [hreq2, ← hres2.1]
    exact (sendRequest_fields cfg r.To _).2.2.2.1

/-- Witness of C13: subject, headers and body files with newlines around them;
subject and headers come out trimmed, the body as it is. -/
theorem resolved_texts_witness :
    resolve (sampleWorld newlineConfig newlineFiles minimalEnv none) "/src" newlineConfig =
      (.ok ⟨"Hi 42", "X-A: 1\nX-B: 2", "\nBuild 42\n\n", ["b@x.com"]⟩,
        [.readFile "/src/subject.txt", .readFile "/src/headers.txt", .readFile "/src/body.txt"]) ∧
    ("Hi 42" = Trim (replaceTokens
        ((sampleWorld newlineConfig newlineFiles minimalEnv none).rangeOrder .subject
          (buildTokens (sampleWorld newlineConfig newlineFiles minimalEnv none).getenv))
        ((sampleWorld newlineConfig newlineFiles minimalEnv none).readFile
          (sourceFile (sampleWorld newlineConfig newlineFiles minimalEnv none) "/src"
            newlineConfig.Params.Subject)).1) "\n" ∧
      (newlineConfig.Params.Body ≠ "" → "\nBuild 42\n\n" = replaceTokens
        ((sampleWorld newlineConfig newlineFiles minimalEnv none).rangeOrder .body
          (buildTokens (sampleWorld newlineConfig newlineFiles minimalEnv none).getenv))
        ((sampleWorld newlineConfig newlineFiles minimalEnv none).readFile
          (sourceFile (sampleWorld newlineConfig newlineFiles minimalEnv none) "/src"
            newlineConfig.Params.Body)).1)) :=
  ⟨by decide,
    (resolved_texts (sampleWorld newlineConfig newlineFiles minimalEnv none) "/src" "v1" [123]
      newlineConfig ⟨"Hi 42", "X-A: 1\nX-B: 2", "\nBuild 42\n\n", ["b@x.com"]⟩
      [.readFile "/src/subject.txt", .readFile "/src/headers.txt", .readFile "/src/body.txt"]
      rfl (by decide)).1,
    (resolved_texts (sampleWorld newlineConfig newlineFiles minimalEnv none) "/src" "v1" [123]
      newlineConfig ⟨"Hi 42", "X-A: 1\nX-B: 2", "\nBuild 42\n\n", ["b@x.com"]⟩
      [.readFile "/src/subject.txt", .readFile "/src/headers.txt", .readFile "/src/body.txt"]
      rfl (by decide)).2.2.2.2.2.1⟩

/-- C14: for a configuration that passes validation and whose files are all
readable, with `send_empty_body` true and a resolved body of length zero,
`Execute` makes exactly one send, after the file reads, and the message sent is
the `To`, `From` and custom header lines followed by `Subject: `, the subject, a
newline and the blank line, with nothing after it. -/
theorem Execute_sends_empty_body (w : World) (sourceRoot version : String) (input : List UInt8)
    (cfg : Input) (r : Resolved) (tr : List Event) (outbytes : String)
    (hroot : sourceRoot ≠ "") (hdec : w.unmarshal input = .ok cfg)
    (hvalid : validate cfg = none) (hres : resolve w sourceRoot cfg = (.ok r, tr))
    (hm : w.marshal (outputRecord w version cfg r.subject) = .ok outbytes)
    (hflag : cfg.Params.SendEmptyBody = true) (hbody : r.body.length = 0) :
    ∃ req, (Execute w sourceRoot version input).trace = tr ++ [Event.sendMail req] ∧
      sends (Execute w sourceRoot version input).trace = [Event.sendMail req] ∧
      (sends (Execute w sourceRoot version input).trace).length = 1 ∧
      req.msg = "To: " ++ Join r.To ", " ++ "\n" ++ "From: " ++ cfg.Source.From ++ "\n" ++
        (if r.headers = "" then "" else r.headers ++ "\n") ++
        "Subject: " ++ r.subject ++ "\n\n" := by
  have hreads := resolve_reads w sourceRoot cfg
  rw [hres] at hreads
  have hE := Execute_of_transmission w sourceRoot version input cfg r tr outbytes hroot hdec
    hvalid hres hm (Or.inl hflag)
  have hs := sends_reads_then_send tr (sendRequest cfg r.To
    (assembleMessage r.To cfg.Source.From r.headers r.subject r.body)) hreads
  refine ⟨sendRequest cfg r.To
    (assembleMessage r.To cfg.Source.From r.headers r.subject r.body), ?_, ?_, ?_, ?_⟩
  · rw [hE]
  · rw [hE]; exact hs
  · rw [hE]
    simp only
    rw [hs]
    rfl
  · rw [(sendRequest_fields cfg r.To _).2.2.2.1, assembleMessage_eq,
      (length_eq_zero_iff_empty r.body).1 hbody]
    simp only [String.append_assoc, String.append_empty]
    rfl

/-- Witness of C14: the minimal configuration, no body file, `send_empty_body` true. -/
theorem Execute_sends_empty_body_witness :
    Execute (sampleWorld minimalConfig minimalFiles minimalEnv none) "/src" "v1" [123] =
      ⟨"smtp_host=smtp.test;subject=Hi 42;version=v1", none,
        [.readFile "/src/subject.txt",
          .sendMail ⟨"smtp.test:587", none, "a@x.com", ["b@x.com"],
            "To: b@x.com\nFrom: a@x.com\nSubject: Hi 42\n\n"⟩]⟩ ∧
    ∃ req, (Execute (sampleWorld minimalConfig minimalFiles minimalEnv none) "/src" "v1"
        [123]).trace = [.readFile "/src/subject.txt"] ++ [Event.sendMail req] ∧
      sends (Execute (sampleWorld minimalConfig minimalFiles minimalEnv none) "/src" "v1"
        [123]).trace = [Event.sendMail req] ∧
      (sends (Execute (sampleWorld minimalConfig minimalFiles minimalEnv none) "/src" "v1"
        [123]).trace).length = 1 ∧
      req.msg = "To: " ++ Join ["b@x.com"] ", " ++ "\n" ++ "From: " ++
        minimalConfig.Source.From ++ "\n" ++
        (if ("" : String) = "" then "" else "" ++ "\n") ++ "Subject: " ++ "Hi 42" ++ "\n\n" :=
  ⟨by decide,
    Execute_sends_empty_body (sampleWorld minimalConfig minimalFiles minimalEnv none) "/src" "v1"
      [123] minimalConfig ⟨"Hi 42", "", "", ["b@x.com"]⟩ [.readFile "/src/subject.txt"]
      "smtp_host=smtp.test;subject=Hi 42;version=v1"
      (by decide) rfl (by decide) (by decide) (by decide) rfl (by decide)⟩

/-- C15: with an empty source root `Execute` returns the missing-argument error
and an empty payload, with no file read and no send, whatever the input bytes
and the version: also when the input does not decode, and the error is never the
error of a failed validation. -/
theorem Execute_empty_root (w : World) (version : String) (input : List UInt8) :
    Execute w "" version input =
      ⟨"", some (.errorsNew "expected path to build sources as first argument"), []⟩ ∧
    (∀ text, (Execute w "" version input).err ≠ some (.jsonUnmarshal text)) ∧
    (∀ cfg, (Execute w "" version input).err ≠ validate cfg) := by
  have hE : Execute w "" version input =
      ⟨"", some (.errorsNew "expected path to build sources as first argument"), []⟩ := by
    unfold Execute
    rw [if_pos rfl]
  refine ⟨hE, ?_, ?_⟩
  · intro text
    rw [hE]
    simp
  · intro cfg
    rw [hE]
    unfold validate
    split_ifs <;> simp

/-! ### The result without an error -/

/-- C16: `Execute` returns no error only if the source root is given, the input
decodes to a configuration that passes validation, every referenced file was
read (the subject file and each of the headers, body and recipients files whose
path is given, and nothing else before the send), the body is non-empty or
`send_empty_body` is true, and the one send that was made returned no error; the
payload is then the serialised output record, which is non-empty as every text
`json.Marshal` returns is. -/
theorem Execute_nil_error (w : World) (sourceRoot version : String) (input : List UInt8)
    (h : (Execute w sourceRoot version input).err = none) :
    ∃ cfg r tr, sourceRoot ≠ "" ∧ w.unmarshal input = .ok cfg ∧ validate cfg = none ∧
      resolve w sourceRoot cfg = (.ok r, tr) ∧
      tr = [readEvent w sourceRoot cfg.Params.Subject] ++
        (if cfg.Params.Headers ≠ "" then [readEvent w sourceRoot cfg.Params.Headers] else []) ++
        (if cfg.Params.Body ≠ "" then [readEvent w sourceRoot cfg.Params.Body] else []) ++
        (if cfg.Params.To ≠ "" then [readEvent w sourceRoot cfg.Params.To] else []) ∧
      (cfg.Params.SendEmptyBody = true ∨ r.body.length ≠ 0) ∧
      w.sendMail (sendRequest cfg r.To
        (assembleMessage r.To cfg.Source.From r.headers r.subject r.body)) = none ∧
      (Execute w sourceRoot version input).trace = tr ++ [Event.sendMail (sendRequest cfg r.To
        (assembleMessage r.To cfg.Source.From r.headers r.subject r.body))] ∧
      sends (Execute w sourceRoot version input).trace = [Event.sendMail (sendRequest cfg r.To
        (assembleMessage r.To cfg.Source.From r.headers r.subject r.body))] ∧
      w.marshal (outputRecord w version cfg r.subject) =
        .ok (Execute w sourceRoot version input).payload ∧
      ((∀ out text, w.marshal out = .ok text → text ≠ "") →
        (Execute w sourceRoot version input).payload ≠ "") := by
  by_cases hroot : sourceRoot = ""
  · rw [hroot] at h
    simp [Execute] at h
  cases hdec : w.unmarshal input with
  | error e => simp [Execute, hroot, hdec] at h
  | ok cfg =>
    cases hval : validate cfg with
    | some e =>
      rw [Execute_of_invalid w sourceRoot version input cfg e hroot hdec hval] at h
      simp at h
    | none =>
      rcases hres : resolve w sourceRoot cfg with ⟨e | r, tr⟩
      · rw [Execute_of_unresolved w sourceRoot version input cfg e tr hroot hdec hval hres] at h
        simp at h
      · have hE := Execute_of_resolved w sourceRoot version input cfg r tr hroot hdec hval hres
        rw [hE] at h
        simp only at h
        cases hm : w.marshal (outputRecord w version cfg r.subject) with
        | error e =>
          simp [deliver, hm] at h
        | ok outbytes =>
          by_cases hempty : cfg.Params.SendEmptyBody = false ∧ r.body.length = 0
          · rw [deliver_of_empty_body w version cfg r outbytes hempty.1 hempty.2 hm] at h
            simp at h
          · have hgo : cfg.Params.SendEmptyBody = true ∨ r.body.length ≠ 0 := by
              by_cases hb : r.body.length = 0
              · left
                cases hf : cfg.Params.SendEmptyBody with
                | true => rfl
                | false => exact absurd ⟨hf, hb⟩ hempty
              · exact Or.inr hb
            have hT := Execute_of_transmission w sourceRoot version input cfg r tr outbytes
              hroot hdec hval hres hm hgo
            have hd := deliver_of_transmission w version cfg r outbytes hm hgo
            rw [hd] at h
            simp only [Option.map_eq_none'] at h
            rw [h] at hT
            have hreads := resolve_reads w sourceRoot cfg
            rw [hres] at hreads
            refine ⟨cfg, r, tr, hroot, rfl, hval, hres,
              resolve_ok_trace w sourceRoot cfg r tr hres, hgo, h, ?_, ?_, ?_, ?_⟩
            · rw [hT]
            · rw [hT]
              exact sends_reads_then_send tr _ hreads
            · rw [hT]
              exact hm
            · intro hjson
              rw [hT]
              exact hjson _ _ hm

/-- Every text the bracketed serialisation returns is non-empty. -/
theorem bracketWorld_marshal_ne (cfg : Input) (files env : List (String × String))
    (smtp : Option String) (out : Output) (text : String)
    (h : (bracketWorld cfg files env smtp).marshal out = .ok text) : text ≠ "" := by
  simp only [bracketWorld, Except.ok.injEq] at h
  rw [← h]
  intro e
  have := congrArg String.data e
  simp [String.data_append] at this

/-- Witness of C16: the minimal configuration, whose run ends without an error,
with a payload that is not empty. -/
theorem Execute_nil_error_witness :
    (Execute (bracketWorld minimalConfig minimalFiles minimalEnv none) "/src" "v1" [123]).err =
      none ∧
    Execute (bracketWorld minimalConfig minimalFiles minimalEnv none) "/src" "v1" [123] =
      ⟨"[smtp_host=smtp.test;subject=Hi 42;version=v1]", none,
        [.readFile "/src/subject.txt",
          .sendMail ⟨"smtp.test:587", none, "a@x.com", ["b@x.com"],
            "To: b@x.com\nFrom: a@x.com\nSubject: Hi 42\n\n"⟩]⟩ ∧
    (Execute (bracketWorld minimalConfig minimalFiles minimalEnv none) "/src" "v1"
      [123]).payload ≠ "" := by
  refine ⟨by decide, by decide, ?_⟩
  obtain ⟨cfg, r, tr, _, _, _, _, _, _, _, _, _, _, hne⟩ :=
    Execute_nil_error (bracketWorld minimalConfig minimalFiles minimalEnv none) "/src" "v1"
      [123] (by decide)
  exact hne (bracketWorld_marshal_ne minimalConfig minimalFiles minimalEnv none)

/-- C17: in every send of `Execute` the message begins with `To: `, the envelope
recipients joined by `, `, and a newline, followed by the `From: ` line of the
envelope sender; the envelope recipients are the resolved recipient list. -/
theorem To_header_matches_envelope (w : World) (sourceRoot version : String)
    (input : List UInt8) (req : SendRequest)
    (h : Event.sendMail req ∈ (Execute w sourceRoot version input).trace) :
    (∃ rest, req.msg =
      "To: " ++ Join req.rcpts ", " ++ "\n" ++ "From: " ++ req.sender ++ "\n" ++ rest) ∧
    ∃ cfg r tr, w.unmarshal input = .ok cfg ∧ resolve w sourceRoot cfg = (.ok r, tr) ∧
      req.rcpts = r.To := by
  obtain ⟨cfg, r, tr, hdec, _, hres, hreq⟩ := Execute_send_inv w sourceRoot version input req h
  obtain ⟨_, f2, f3, f4, _, _⟩ := sendRequest_fields cfg r.To
    (assembleMessage r.To cfg.Source.From r.headers r.subject r.body)
  rw [← hreq] at f2 f3 f4
  refine ⟨⟨(if r.headers = "" then "" else r.headers ++ "\n") ++ "Subject: " ++ r.subject ++
    "\n" ++ "\n" ++ r.body, ?_⟩, cfg, r, tr, hdec, hres, f3⟩
  rw [f4, f3, f2, assembleMessage_eq]
  simp only [String.append_assoc]

/-- Witness of C17: the send of the configuration with a recipients file. -/
theorem To_header_matches_envelope_witness :
    (∃ rest, "To: b@x.com, c@x.com, d@x.com, \nFrom: a@x.com\nX-Build: 7\nSubject: Hi 42\n\n" ++
        "Build 42 done\n" =
      "To: " ++ Join ["b@x.com", "c@x.com", "d@x.com", ""] ", " ++ "\n" ++ "From: " ++
        "a@x.com" ++ "\n" ++ rest) ∧
    ∃ cfg r tr,
      (sampleWorld fullConfig sampleFiles sampleEnv none).unmarshal [123] = .ok cfg ∧
      resolve (sampleWorld fullConfig sampleFiles sampleEnv none) "/src" cfg = (.ok r, tr) ∧
      ["b@x.com", "c@x.com", "d@x.com", ""] = r.To :=
  To_header_matches_envelope (sampleWorld fullConfig sampleFiles sampleEnv none) "/src" "v1"
    [123] ⟨"smtp.test:587", some ⟨"", "user", "secret", "smtp.test"⟩, "a@x.com",
      ["b@x.com", "c@x.com", "d@x.com", ""],
      "To: b@x.com, c@x.com, d@x.com, \nFrom: a@x.com\nX-Build: 7\nSubject: Hi 42\n\n" ++
        "Build 42 done\n"⟩ (by decide)

/-! ### The entries of the recipients file -/

/-- Splitting at commas yields one piece more than there are commas. -/
theorem splitScan_comma_length (s cur : List Char) :
    (splitScan [','] 0 cur s).length = s.count ',' + 1 := by
  induction s generalizing cur with
  | nil => rfl
  | cons c s ih =>
    rw [splitScan]
    by_cases hc : c = ','
    · subst hc
      have hp : [','].isPrefixOf (',' :: s) = true := by
        rw [List.isPrefixOf_iff_prefix]
        exact List.prefix_append [','] s
      rw [if_pos hp]
      show (splitScan [','] 0 [] s).length + 1 = _
      rw [ih, List.count_cons_self]
    · have hp : ¬ ([','].isPrefixOf (c :: s) = true) := by
        rw [List.isPrefixOf_iff_prefix, List.cons_prefix_cons]
        exact fun e => hc e.1.symm
      rw [if_neg hp, ih, List.count_cons_of_ne (fun e => hc e.symm)]

/-- The pieces of a text with a comma in it are the pieces before the comma
followed by the pieces after it. -/
theorem splitScan_comma_append (p q cur : List Char) :
    splitScan [','] 0 cur (p ++ ',' :: q) =
      splitScan [','] 0 cur p ++ splitScan [','] 0 [] q := by
  have hcomma : ∀ s : List Char, [','].isPrefixOf (',' :: s) = true := by
    intro s
    rw [List.isPrefixOf_iff_prefix]
    exact List.prefix_append [','] s
  induction p generalizing cur with
  | nil =>
    have e : splitScan [','] 0 cur (',' :: q) = cur.reverse :: splitScan [','] 0 [] q := by
      rw [splitScan, if_pos (hcomma q)]
      rfl
    show splitScan [','] 0 cur (',' :: q) = splitScan [','] 0 cur [] ++ _
    rw [e]
    rfl
  | cons c p ih =>
    show splitScan [','] 0 cur (c :: (p ++ ',' :: q)) = splitScan [','] 0 cur (c :: p) ++ _
    rw [splitScan, splitScan]
    by_cases hc : c = ','
    · subst hc
      rw [if_pos (hcomma _), if_pos (hcomma _)]
      show _ :: splitScan [','] 0 [] (p ++ ',' :: q) = _
      rw [ih]
      rfl
    · have hp : ∀ s : List Char, ¬ ([','].isPrefixOf (c :: s) = true) := by
        intro s
        rw [List.isPrefixOf_iff_prefix, List.cons_prefix_cons]
        exact fun e => hc e.1.symm
      rw [if_neg (hp _), if_neg (hp _), ih]

/-- The pieces `strings.Split` returns for the separator `,`. -/
theorem Split_comma (s : String) :
    Split s "," = (splitScan [','] 0 [] s.data).map String.mk := by
  unfold Split
  have h : ",".data ≠ [] := by decide
  rw [if_neg h]

/-- The recipients block on a readable recipients file with empty content. -/
theorem resolveTo_of_empty (w : World) (sourceRoot : String) (cfg : Input) (bytes : String)
    (hpath : cfg.Params.To ≠ "")
    (hread : w.readFile (sourceFile w sourceRoot cfg.Params.To) = (bytes, none))
    (hc : (replaceTokens (w.rangeOrder .toList (buildTokens w.getenv)) bytes).length = 0) :
    resolveTo w sourceRoot cfg = (.ok cfg.Source.To, [readEvent w sourceRoot cfg.Params.To]) := by
  simp [resolveTo, readSource, hread, hpath, hc]

/-- C18: for a configuration with a readable `params.to` file of token-substituted
content `c`: when `c` has length zero nothing is appended and the resolved
recipient list is `source.to` unchanged; when `c` is non-empty the entries
appended are the trimmed comma-split pieces of `c`, one more than `c` has commas,
with an empty entry last when `c` ends in a comma and an empty entry whenever two
commas follow each other. -/
theorem recipients_file_entries (w : World) (sourceRoot : String) (cfg : Input)
    (bytes c : String) (hpath : cfg.Params.To ≠ "")
    (hread : w.readFile (sourceFile w sourceRoot cfg.Params.To) = (bytes, none))
    (hc : replaceTokens (w.rangeOrder .toList (buildTokens w.getenv)) bytes = c) :
    (c.length = 0 →
      resolveTo w sourceRoot cfg = (.ok cfg.Source.To, [readEvent w sourceRoot cfg.Params.To]) ∧
      ∀ r tr, resolve w sourceRoot cfg = (.ok r, tr) → r.To = cfg.Source.To) ∧
    (c.length ≠ 0 →
      ∃ derived,
        resolveTo w sourceRoot cfg =
          (.ok (cfg.Source.To ++ derived), [readEvent w sourceRoot cfg.Params.To]) ∧
        (∀ r tr, resolve w sourceRoot cfg = (.ok r, tr) → r.To = cfg.Source.To ++ derived) ∧
        derived = (Split c ",").map TrimSpace ∧
        derived.length = c.data.count ',' + 1 ∧
        (∀ p, c.data = p ++ [','] → derived.getLast? = some "") ∧
        (∀ p q, c.data = p ++ ',' :: ',' :: q → "" ∈ derived)) := by
  have hofTo : ∀ (l : List String) (t : List Event), resolveTo w sourceRoot cfg = (.ok l, t) →
      ∀ r tr, resolve w sourceRoot cfg = (.ok r, tr) → r.To = l := by
    intro l t hl r tr hres
    obtain ⟨t1, t2, t3, t4, _, _, _, h4, _⟩ := resolve_ok_blocks w sourceRoot cfg r tr hres
    rw [hl] at h4
    simp only [Prod.mk.injEq, Except.ok.injEq] at h4
    exact h4.1.symm
  have htrim : TrimSpace (String.mk []) = "" := by decide
  constructor
  · intro hlen
    have h0 := resolveTo_of_empty w sourceRoot cfg bytes hpath hread (by rw [hc]; exact hlen)
    exact ⟨h0, hofTo _ _ h0⟩
  · intro hlen
    have hne : replaceTokens (w.rangeOrder .toList (buildTokens w.getenv)) bytes ≠ "" := by
      rw [hc]
      exact fun e => hlen ((length_eq_zero_iff_empty c).2 e)
    have h1 := resolveTo_of_content w sourceRoot cfg bytes hpath hread hne
    rw [hc] at h1
    refine ⟨(Split c ",").map TrimSpace, h1, hofTo _ _ h1, rfl, ?_, ?_, ?_⟩
    · rw [List.length_map, Split_comma, List.length_map, splitScan_comma_length]
    · intro p hp
      rw [Split_comma, hp, splitScan_comma_append]
      simp only [List.map_append, List.getLast?_append]
      show (Option.or (some (TrimSpace (String.mk []))) _) = some ""
      rw [htrim]
      rfl
    · intro p q hp
      rw [Split_comma, hp, splitScan_comma_append]
      have hq : splitScan [','] 0 [] (',' :: q) = [] :: splitScan [','] 0 [] q := by
        rw [splitScan]
        have : [','].isPrefixOf (',' :: q) = true := by
          rw [List.isPrefixOf_iff_prefix]
          exact List.prefix_append [','] q
        rw [if_pos this]
        rfl
      rw [hq]
      simp only [List.map_append, List.map_cons, List.mem_append, List.mem_cons]
      right
      left
      exact htrim.symm

/-- Witness of C18: the recipients file `c@x.com, d@x.com ,` has two commas and
gives three entries, the last one empty. -/
theorem recipients_file_entries_witness :
    resolveTo (sampleWorld fullConfig sampleFiles sampleEnv none) "/src" fullConfig =
      (.ok ["b@x.com", "c@x.com", "d@x.com", ""], [.readFile "/src/to.txt"]) ∧
    resolveTo (sampleWorld emptyListConfig sampleFiles sampleEnv none) "/src" emptyListConfig =
      (.ok [], [.readFile "/src/empty.txt"]) ∧
    (("c@x.com, d@x.com ," : String).length ≠ 0 →
      ∃ derived,
        resolveTo (sampleWorld fullConfig sampleFiles sampleEnv none) "/src" fullConfig =
          (.ok (fullConfig.Source.To ++ derived),
            [readEvent (sampleWorld fullConfig sampleFiles sampleEnv none) "/src"
              fullConfig.Params.To]) ∧
        (∀ r tr, resolve (sampleWorld fullConfig sampleFiles sampleEnv none) "/src" fullConfig =
          (.ok r, tr) → r.To = fullConfig.Source.To ++ derived) ∧
        derived = (Split "c@x.com, d@x.com ," ",").map TrimSpace ∧
        derived.length = ("c@x.com, d@x.com ," : String).data.count ',' + 1 ∧
        (∀ p, ("c@x.com, d@x.com ," : String).data = p ++ [','] → derived.getLast? = some "") ∧
        (∀ p q, ("c@x.com, d@x.com ," : String).data = p ++ ',' :: ',' :: q → "" ∈ derived)) :=
  ⟨by decide, by decide,
    (recipients_file_entries (sampleWorld fullConfig sampleFiles sampleEnv none) "/src"
      fullConfig "c@x.com, d@x.com ," "c@x.com, d@x.com ," (by decide) rfl (by decide)).2⟩

end EmailResource
